import Mathlib

set_option maxHeartbeats 1000000

/-!
Shallow embedding of `ldm/invoke/model_cache.py` (class `ModelCache`):
LRU model residency (`get_model`, `_make_cache_room`, `_pop_oldest_model`,
`_push_newest_model`, `offload_model`), registry mutation (`add_model`,
`del_model`, `_invalidate_cached_model`), config persistence (`commit`,
`preamble`), checkpoint safety scanning (`scan_model`), sidecar hash caching
(`_cached_sha256`) and the diffusers half-precision fallback loop
(`_load_diffusers_model`).

Python dicts are embedded as association lists (insertion order preserved,
update-in-place keeps position, fresh keys append at the end, exactly like
CPython dicts).  The external `_load_model` work (torch deserialization,
network fetch) is abstracted as an oracle `Nat → String → Option MRecord`
consulted at a ghost call counter; `none` stands for the loader raising.
Recursion in `get_model` (the failure-restore path calls `get_model` again)
is made total with an explicit fuel parameter; exhausting every fuel bound
models the unbounded recursion of the source.
-/

/-- Association-list lookup, mirroring a Python dict lookup. -/
def lookupA {κ α : Type} [DecidableEq κ] : List (κ × α) → κ → Option α
  | [], _ => none
  | (k1, v1) :: rest, k => if k1 = k then some v1 else lookupA rest k

/-- Association-list write `d[k] = v`: updates the first entry for `k` in
place, otherwise appends at the end — CPython dict semantics. -/
def setA {κ α : Type} [DecidableEq κ] : List (κ × α) → κ → α → List (κ × α)
  | [], k, v => [(k, v)]
  | (k1, v1) :: rest, k, v =>
    if k1 = k then (k, v) :: rest else (k1, v1) :: setA rest k v

/-- Association-list delete `del d[k]` / `d.pop(k, None)`: removes the first
entry for `k` (the only one, when keys are unique). -/
def eraseA {κ α : Type} [DecidableEq κ] : List (κ × α) → κ → List (κ × α)
  | [], _ => []
  | (k1, v1) :: rest, k =>
    if k1 = k then rest else (k1, v1) :: eraseA rest k

/-- Keys of an association list, in order. -/
def keysA {κ α : Type} (l : List (κ × α)) : List κ := l.map Prod.fst

/-- Attribute map of a registry entry (`models.yaml` stanza): field name to
field value, both strings in this embedding. -/
abbrev Attrs := List (String × String)

/-- Opaque in-memory model object: an identity plus which device currently
holds its tensors (`onGpu = false` after `_model_to_cpu`). -/
structure ModelObj where
  handle : Nat
  onGpu : Bool
deriving DecidableEq, Repr

/-- One entry of `self.models`: the dict
`{'model': ..., 'width': ..., 'height': ..., 'hash': ...}`. -/
structure MRecord where
  model : ModelObj
  width : Nat
  height : Nat
  hash : String
deriving DecidableEq, Repr

/-- Python exceptions that the embedded cache operations can raise. -/
inductive PyErr where
  | assertionError (msg : String)
  | indexError
  | keyError
deriving DecidableEq, Repr

/-- Value returned by `get_model`: the loaded-record dict, or (on the
unknown-name path) `self.current_model` which is a plain name string, or
Python `None` (bare `return`, and unknown name with no current model). -/
inductive GetRet where
  | record (r : MRecord)
  | modelName (n : String)
  | retNone
deriving DecidableEq, Repr

/-- State of the `ModelCache` object.  `loadCount` is a ghost counter of
`_load_model` invocations (index into the loader oracle); `evLog` is a ghost
event log recording, for each eviction done by `_make_cache_room`, the pair
(evicted name, `self.current_model` at that moment). -/
structure ModelCache where
  maxLoadedModels : Nat
  devIsCpu : Bool
  config : List (String × Attrs)
  models : List (String × MRecord)
  stack : List String
  currentModel : Option String
  loadCount : Nat
  evLog : List (String × Option String)
deriving DecidableEq, Repr

/-- Outcome of a `get_model` call: normal return with the post-call state, a
propagated exception with the state at the raise point, or fuel exhaustion
(the source recursing without bound). -/
inductive GetOutcome where
  | ok (v : GetRet) (s : ModelCache)
  | raised (e : PyErr) (s : ModelCache)
  | outOfFuel
deriving DecidableEq, Repr

/-- Fresh cache as built by `ModelCache.__init__`. -/
def initCache (maxLoadedModels : Nat) (devIsCpu : Bool)
    (config : List (String × Attrs)) : ModelCache :=
  { maxLoadedModels := maxLoadedModels
    devIsCpu := devIsCpu
    config := config
    models := []
    stack := []
    currentModel := none
    loadCount := 0
    evLog := [] }

/-- `valid_model`: the name is a key of the registry. -/
def valid_model (s : ModelCache) (model_name : String) : Bool :=
  (lookupA s.config model_name).isSome

/-- `_model_to_cpu`: returns the model unchanged when the cache device is the
CPU, otherwise moves the tensors off the fast device. -/
def _model_to_cpu (s : ModelCache) (m : ModelObj) : ModelObj :=
  if s.devIsCpu then m else { m with onGpu := false }

/-- `_model_from_cpu`: returns the model unchanged when the cache device is
the CPU, otherwise moves the tensors onto the fast device. -/
def _model_from_cpu (s : ModelCache) (m : ModelObj) : ModelObj :=
  if s.devIsCpu then m else { m with onGpu := true }

/-- `offload_model`: no-op when the name is not resident, otherwise replaces
the stored model object by its CPU migration. -/
def offload_model (s : ModelCache) (model_name : String) : ModelCache :=
  match lookupA s.models model_name with
  | none => s
  | some r =>
    let r2 : MRecord := { r with model := _model_to_cpu s r.model }
    { s with models := setA s.models model_name r2 }

/-- The source passes `self.current_model` (a `str` or `None`) to
`offload_model`; `None not in self.models`, so a `None` argument is a no-op. -/
def offloadCurrent (s : ModelCache) (cur : Option String) : ModelCache :=
  match cur with
  | none => s
  | some n => offload_model s n

/-- `_pop_oldest_model`: `self.stack.pop(0)` — removes and returns the head
of the recency queue; raises `IndexError` on an empty list. -/
def _pop_oldest_model (s : ModelCache) : Except (PyErr × ModelCache) (String × ModelCache) :=
  match s.stack with
  | [] => .error (.indexError, s)
  | oldest :: rest => .ok (oldest, { s with stack := rest })

/-- `_make_cache_room`: when the loaded-model count is at or above
`max_loaded_models`, pops the oldest queue entry and deletes its record from
`self.models` (the popped value is a string from the stack, so the source's
`is not None` guard always passes; `del` on a missing key is a `KeyError`).
Each eviction is recorded in the ghost `evLog` together with the value of
`self.current_model` at that moment. -/
def _make_cache_room (s : ModelCache) : Except (PyErr × ModelCache) ModelCache :=
  if s.maxLoadedModels ≤ s.models.length then
    match _pop_oldest_model s with
    | .error es => .error es
    | .ok (oldest, s1) =>
      if (lookupA s1.models oldest).isSome then
        .ok { s1 with models := eraseA s1.models oldest
                      evLog := s1.evLog ++ [(oldest, s1.currentModel)] }
      else .error (.keyError, s1)
  else .ok s

/-- `_push_newest_model`: `self.stack.remove(name)` with `ValueError`
suppressed (`List.erase` is already a no-op on a missing element), then
append at the most-recent end. -/
def _push_newest_model (s : ModelCache) (model_name : String) : ModelCache :=
  { s with stack := s.stack.erase model_name ++ [model_name] }

/-- Value of `return self.current_model` on the unknown-name path. -/
def retOfCurrent : Option String → GetRet
  | none => .retNone
  | some n => .modelName n

/-- Message of the `assert self.current_model` failure in `get_model`. -/
def fatalNoCurrent : String := "** FATAL: no current model to restore to"

/-- First half of the `if self.current_model != model_name:` block of
`get_model`: make room when the requested model is not resident, then
offload the currently active model. -/
def prepareSlot (s : ModelCache) (model_name : String) :
    Except (PyErr × ModelCache) ModelCache :=
  if s.currentModel = some model_name then .ok s
  else
    match (if (lookupA s.models model_name).isNone
           then _make_cache_room s else .ok s) with
    | .error es => .error es
    | .ok s1 => .ok (offloadCurrent s1 s.currentModel)

/-- Tail of a successful `get_model`: set `self.current_model`, push the name
on the recency queue, and return the record dict. -/
def finishGet (s : ModelCache) (model_name : String) (r : MRecord) : GetOutcome :=
  .ok (.record r)
    (_push_newest_model { s with currentModel := some model_name } model_name)

/-- `get_model`, with `_load_model` abstracted as `loader` (consulted at the
ghost call counter; `none` = the loader raised) and fuel making the
failure-restore recursion total. -/
def get_model (loader : Nat → String → Option MRecord) :
    Nat → ModelCache → String → GetOutcome
  | 0, _, _ => .outOfFuel
  | fuel + 1, s, model_name =>
    if valid_model s model_name = false then
      .ok (retOfCurrent s.currentModel) s
    else
      match prepareSlot s model_name with
      | .error (e, sE) => .raised e sE
      | .ok s1 =>
        match lookupA s1.models model_name with
        | some r =>
          let r2 := { r with model := _model_from_cpu s1 r.model }
          finishGet { s1 with models := setA s1.models model_name r2 }
            model_name r2
        | none =>
          match loader s1.loadCount model_name with
          | some r =>
            finishGet
              { s1 with loadCount := s1.loadCount + 1
                        models := setA s1.models model_name r }
              model_name r
          | none =>
            let s2 := { s1 with loadCount := s1.loadCount + 1 }
            match s2.currentModel with
            | none => .raised (.assertionError fatalNoCurrent) s2
            | some cur =>
              if cur = "" then .raised (.assertionError fatalNoCurrent) s2
              else
                match get_model loader fuel s2 cur with
                | .ok _ s3 => .ok .retNone s3
                | .raised e s3 => .raised e s3
                | .outOfFuel => .outOfFuel

/-- States visited by a sequence of `get_model` calls: the trace of cache
states, continuing through raised exceptions (the Python object survives a
propagated exception), stopping on fuel exhaustion. -/
def runGets (loader : Nat → String → Option MRecord) (fuel : Nat) :
    ModelCache → List String → List ModelCache
  | s, [] => [s]
  | s, n :: ns =>
    match get_model loader fuel s n with
    | .ok _ s1 => s :: runGets loader fuel s1 ns
    | .raised _ s1 => s :: runGets loader fuel s1 ns
    | .outOfFuel => [s]

/-- `_invalidate_cached_model`: offload, drop from the recency queue if
present, and `self.models.pop(name, None)`. -/
def _invalidate_cached_model (s : ModelCache) (model_name : String) : ModelCache :=
  let s1 := offload_model s model_name
  let s2 := { s1 with stack :=
    if model_name ∈ s1.stack then s1.stack.erase model_name else s1.stack }
  { s2 with models := eraseA s2.models model_name }

/-- `del_model`: `del omega[model_name]` (a `KeyError` when the name is not
registered) and removal from the recency queue when present.  The
loaded-model map `self.models` is not touched. -/
def del_model (s : ModelCache) (model_name : String) :
    Except (PyErr × ModelCache) ModelCache :=
  if (lookupA s.config model_name).isNone then .error (.keyError, s)
  else
    .ok { s with
      config := eraseA s.config model_name
      stack := if model_name ∈ s.stack then s.stack.erase model_name else s.stack }

/-- First missing field among a required list, mirroring the order of the
`for field in (...)` assertion loop of `add_model`. -/
def firstMissing (attrs : Attrs) : List String → Option String
  | [] => none
  | f :: rest =>
    if (lookupA attrs f).isNone then some f else firstMissing attrs rest

/-- Overlay of the provided attributes onto an existing config stanza:
`for field in model_attributes: config[field] = model_attributes[field]`. -/
def mergeFields (base : Attrs) : Attrs → Attrs
  | [] => base
  | (k, v) :: rest => mergeFields (setA base k v) rest

/-- Field validation of `add_model`: the `diffusers`-format assertions
(description present; `path` or `repo_id` present) or, for any other
format, the loop asserting the five required legacy fields; returns the
message of the first failing assertion, `none` when all pass. -/
def fieldCheck (model_attributes : Attrs) : Option String :=
  if lookupA model_attributes "format" = some "diffusers" then
    if (lookupA model_attributes "description").isNone = true then
      some "required field description is missing"
    else if ((lookupA model_attributes "path").isNone
        && (lookupA model_attributes "repo_id").isNone) = true then
      some "model must have either the path or repo_id fields defined"
    else none
  else
    firstMissing model_attributes
      ["description", "weights", "height", "width", "config"]

/-- `add_model`: the chain of assertions (missing `format`; the per-format
field checks; `assert (clobber or model_name not in omega)`), then the
config update overlaying the attributes on any existing stanza, then
`_invalidate_cached_model` when `clobber` is set. -/
def add_model (s : ModelCache) (model_name : String) (model_attributes : Attrs)
    (clobber : Bool) : Except String ModelCache :=
  if (lookupA model_attributes "format").isNone = true then
    .error "missing required field format"
  else
    match fieldCheck model_attributes with
    | some msg => .error msg
    | none =>
      if clobber = true ∨ lookupA s.config model_name = none then
        let base := (lookupA s.config model_name).getD []
        let cfg1 := setA s.config model_name (mergeFields base model_attributes)
        let s1 := { s with config := cfg1 }
        .ok (if clobber then _invalidate_cached_model s1 model_name else s1)
      else .error "attempt to overwrite existing model definition"

/-- Decides whether an `add_model` call raised. -/
def isErrorE {ε α : Type} : Except ε α → Bool
  | .error _ => true
  | .ok _ => false

/-- Executable model of Python `str.startswith`: prefix test on the
character lists (the library `String.startsWith` does not reduce inside the
kernel). -/
def pyStartsWith (s pre : String) : Bool := pre.data.isPrefixOf s.data

/-- ASCII lowercase of one character, as `str.lower` acts on the letters
appearing here. -/
def lowerChar (c : Char) : Char :=
  if 65 ≤ c.toNat ∧ c.toNat ≤ 90 then Char.ofNat (c.toNat + 32) else c

/-- Executable model of Python `str.lower`. -/
def pyLower (s : String) : String := ⟨s.data.map lowerChar⟩

/-- Outcome of `scan_model`: process exit (`sys.exit()`) or proceeding with
the load, each recording whether `ask_user` was consulted first. -/
inductive ScanOutcome where
  | exited (prompted : Bool)
  | proceeded (prompted : Bool)
deriving DecidableEq, Repr

/-- `scan_model`, with the picklescan result abstracted to its
`infected_files` count and the `ask_user` reply abstracted as `answer`
(consulted only on the branch that actually prompts). -/
def scan_model (infected_files : Nat) (answer : String) : ScanOutcome :=
  if infected_files ≠ 0 then
    if infected_files = 1 then .exited false
    else
      if pyLower answer ≠ "y" then .exited true
      else .proceeded true
  else .proceeded false

/-- Result of one `from_pretrained` attempt inside
`_load_diffusers_model`: success, an `OSError` (the only exception class the
`except` clause catches), or any other exception. -/
inductive FetchOutcome where
  | ok (pipe : Nat)
  | osError (msg : String)
  | otherExc (msg : String)
deriving DecidableEq, Repr

/-- Result of the fp16-fallback loop: a pipeline after a number of attempts,
a non-`OSError` exception propagating out of the loop, or the final
`assert pipeline is not None` failing after every attempt.  `log` collects
the messages printed for caught `OSError`s. -/
inductive DiffusersResult where
  | ok (pipe : Nat) (attempts : Nat) (log : List String)
  | raisedOther (msg : String) (attempts : Nat) (log : List String)
  | assertFailed (attempts : Nat) (log : List String)
deriving DecidableEq, Repr

/-- Keyword arguments of a precision tier: `{'revision':'fp16'}` or `{}`. -/
def fp16Args : List (String × String) := [("revision", "fp16")]

/-- `fp_args_list`: half precision first, then full precision, when running
at float16; only full precision otherwise. -/
def fpArgsList (usingFp16 : Bool) : List (List (String × String)) :=
  if usingFp16 then [fp16Args, []] else [[]]

/-- Message printed for a caught `OSError`, chosen by the
`str(e).startswith("fp16 is not a valid")` test. -/
def osNote (m : String) : String :=
  if pyStartsWith m "fp16 is not a valid" then
    "Could not fetch half-precision version of model; fetching full-precision instead"
  else
    "An unexpected error occurred while downloading the model: " ++ m

/-- The `for fp_args in fp_args_list:` loop of `_load_diffusers_model`: an
`OSError` is caught, a message chosen by the `fp16 is not a valid` prefix
test is printed, and the loop simply continues; any other exception
propagates; `if pipeline: break` on success; the trailing assertion fires
when no attempt produced a pipeline. -/
def runFetchLoop (fetch : List (String × String) → FetchOutcome) :
    List (List (String × String)) → Nat → List String → DiffusersResult
  | [], attempts, log => .assertFailed attempts log
  | args :: rest, attempts, log =>
    match fetch args with
    | .ok p => .ok p (attempts + 1) log
    | .osError m =>
      runFetchLoop fetch rest (attempts + 1) (log ++ [osNote m])
    | .otherExc m => .raisedOther m (attempts + 1) log

/-- Number of `from_pretrained` attempts a loop result records. -/
def attemptsOf : DiffusersResult → Nat
  | .ok _ a _ => a
  | .raisedOther _ a _ => a
  | .assertFailed a _ => a

/-- `_load_diffusers_model`, reduced to its precision-fallback control flow:
`fetch` abstracts `StableDiffusionGeneratorPipeline.from_pretrained` applied
to one tier of keyword arguments. -/
def _load_diffusers_model (usingFp16 : Bool)
    (fetch : List (String × String) → FetchOutcome) : DiffusersResult :=
  runFetchLoop fetch (fpArgsList usingFp16) 0 []

/-- File path split as `os.path` sees it in `_cached_sha256`: directory,
basename without extension, extension. -/
structure WPath where
  dir : String
  base : String
  ext : String
deriving DecidableEq, Repr

/-- Metadata and content of one file. -/
structure FileInfo where
  content : String
  mtime : Nat
deriving DecidableEq, Repr

/-- Filesystem snapshot: path to file info. -/
abbrev FS := List (WPath × FileInfo)

/-- Sidecar hash path: same directory and base name, `.sha256` extension. -/
def hashPathOf (p : WPath) : WPath := ⟨p.dir, p.base, ".sha256"⟩

/-- Result of `_cached_sha256`: the digest, the filesystem afterwards, and
whether the expensive hashing path ran; `osError` models `os.path.getmtime`
on a missing weights file. -/
inductive HashResult where
  | ok (digest : String) (fs : FS) (computed : Bool)
  | osError
deriving DecidableEq, Repr

/-- `_cached_sha256`: return the sidecar content when the sidecar exists and
the weights mtime is at most the sidecar mtime; otherwise hash the full byte
content, persist it to the sidecar (which receives mtime `now`), and return
it.  `sha` abstracts `hashlib.sha256(...).hexdigest()`. -/
def _cached_sha256 (sha : String → String) (fs : FS) (now : Nat)
    (path : WPath) (data : String) : HashResult :=
  let hp := hashPathOf path
  match lookupA fs hp with
  | some hinfo =>
    match lookupA fs path with
    | none => .osError
    | some pinfo =>
      if pinfo.mtime ≤ hinfo.mtime then .ok hinfo.content fs false
      else
        let h := sha data
        .ok h (setA fs hp ⟨h, now⟩) true
  | none =>
    let h := sha data
    .ok h (setA fs hp ⟨h, now⟩) true

/-- `preamble`: the fixed comment block written before the serialized
registry on every `commit` (the `textwrap.dedent` result). -/
def preamble : String :=
  "# This file describes the alternative machine learning models\n" ++
  "# available to InvokeAI script.\n" ++
  "#\n" ++
  "# To add a new model, follow the examples below. Each\n" ++
  "# model requires a model config file, a weights file,\n" ++
  "# and the width and height of the images it\n" ++
  "# was trained on.\n"

/-- Temp file used by `commit`: `new_config.tmp` next to the target. -/
def tmpPathFor (target : WPath) : WPath := ⟨target.dir, "new_config", ".tmp"⟩

/-- Write (create or overwrite) a file with the given content and mtime. -/
def fsWrite (fs : FS) (p : WPath) (content : String) (now : Nat) : FS :=
  setA fs p ⟨content, now⟩

/-- `os.replace(src, dst)`: atomically rename `src` onto `dst`.  `commit`
always writes `src` immediately before, so the missing-source error case of
`os.replace` is unreachable there and modelled as a no-op. -/
def fsReplace (fs : FS) (src dst : WPath) : FS :=
  match lookupA fs src with
  | none => fs
  | some fi => setA (eraseA fs src) dst fi

/-- `commit`, as the trace of filesystem snapshots it produces: the initial
state, the state after writing preamble plus serialized registry to the temp
file, and the state after the atomic rename.  `toYaml` abstracts
`OmegaConf.to_yaml`. -/
def commitTrace (toYaml : List (String × Attrs) → String) (fs : FS)
    (config : List (String × Attrs)) (target : WPath) (now : Nat) : List FS :=
  let yamlStr := toYaml config
  let tmp := tmpPathFor target
  let fs1 := fsWrite fs tmp (preamble ++ yamlStr) now
  let fs2 := fsReplace fs1 tmp target
  [fs, fs1, fs2]

theorem lookupA_setA_self {κ α : Type} [DecidableEq κ] (l : List (κ × α)) (k : κ) (v : α) :
    lookupA (setA l k v) k = some v := by
  induction l with
  | nil => simp [setA, lookupA]
  | cons hd t ih =>
    obtain ⟨k1, v1⟩ := hd
    by_cases hk : k1 = k
    · subst hk; simp [setA, lookupA]
    · simp [setA, lookupA, hk, ih]

theorem lookupA_setA_ne {κ α : Type} [DecidableEq κ] {l : List (κ × α)} {k k1 : κ}
    (v : α) (h : k1 ≠ k) : lookupA (setA l k v) k1 = lookupA l k1 := by
  induction l with
  | nil =>
    have : ¬ (k = k1) := fun hh => h (Eq.symm hh)
    simp [setA, lookupA, this]
  | cons hd t ih =>
    obtain ⟨k2, v2⟩ := hd
    by_cases hk : k2 = k
    · subst hk
      have : ¬ (k2 = k1) := fun hh => h (Eq.symm hh)
      simp [setA, lookupA, this]
    · by_cases hk1 : k2 = k1
      · subst hk1; simp [setA, lookupA, hk]
      · simp [setA, lookupA, hk, hk1, ih]

theorem lookupA_isSome_iff {κ α : Type} [DecidableEq κ] {l : List (κ × α)} {k : κ} :
    (lookupA l k).isSome = true ↔ k ∈ keysA l := by
  induction l with
  | nil => simp [lookupA, keysA]
  | cons hd t ih =>
    obtain ⟨k1, v1⟩ := hd
    by_cases hk : k1 = k
    · subst hk; simp [lookupA, keysA]
    · have : ¬ (k = k1) := fun hh => hk (Eq.symm hh)
      simp [lookupA, keysA, hk, this, ih]

theorem lookupA_none_iff {κ α : Type} [DecidableEq κ] {l : List (κ × α)} {k : κ} :
    (lookupA l k).isNone = true ↔ k ∉ keysA l := by
  rw [← lookupA_isSome_iff (l := l) (k := k)]
  cases lookupA l k <;> simp

theorem setA_length_mem {κ α : Type} [DecidableEq κ] {l : List (κ × α)} {k : κ}
    (v : α) (h : (lookupA l k).isSome = true) : (setA l k v).length = l.length := by
  induction l with
  | nil => simp [lookupA] at h
  | cons hd t ih =>
    obtain ⟨k1, v1⟩ := hd
    by_cases hk : k1 = k
    · subst hk; simp [setA]
    · simp [lookupA, hk] at h
      simp [setA, hk, ih h]

theorem setA_length_new {κ α : Type} [DecidableEq κ] {l : List (κ × α)} {k : κ}
    (v : α) (h : lookupA l k = none) : (setA l k v).length = l.length + 1 := by
  induction l with
  | nil => simp [setA]
  | cons hd t ih =>
    obtain ⟨k1, v1⟩ := hd
    by_cases hk : k1 = k
    · subst hk; simp [lookupA] at h
    · simp [lookupA, hk] at h
      simp [setA, hk, ih h]

theorem keysA_setA_mem {κ α : Type} [DecidableEq κ] {l : List (κ × α)} {k : κ}
    (v : α) (h : (lookupA l k).isSome = true) : keysA (setA l k v) = keysA l := by
  induction l with
  | nil => simp [lookupA] at h
  | cons hd t ih =>
    obtain ⟨k1, v1⟩ := hd
    by_cases hk : k1 = k
    · subst hk; simp [setA, keysA]
    · simp [lookupA, hk] at h
      have ih2 := ih h
      simp only [keysA] at ih2 ⊢
      simp [setA, hk, ih2]

theorem keysA_setA_new {κ α : Type} [DecidableEq κ] {l : List (κ × α)} {k : κ}
    (v : α) (h : lookupA l k = none) : keysA (setA l k v) = keysA l ++ [k] := by
  induction l with
  | nil => simp [setA, keysA]
  | cons hd t ih =>
    obtain ⟨k1, v1⟩ := hd
    by_cases hk : k1 = k
    · subst hk; simp [lookupA] at h
    · simp [lookupA, hk] at h
      have ih2 := ih h
      simp only [keysA] at ih2 ⊢
      simp [setA, hk, ih2]

theorem keysA_eraseA {κ α : Type} [DecidableEq κ] (l : List (κ × α)) (k : κ) :
    keysA (eraseA l k) = (keysA l).erase k := by
  induction l with
  | nil => simp [eraseA, keysA]
  | cons hd t ih =>
    obtain ⟨k1, v1⟩ := hd
    by_cases hk : k1 = k
    · subst hk; simp [eraseA, keysA, List.erase_cons_head]
    · have hbk : ¬ (k1 == k) = true := by simp [hk]
      simp only [keysA] at ih ⊢
      simp [eraseA, hk, ih, List.erase_cons_tail, hbk]

theorem lookupA_eraseA_ne {κ α : Type} [DecidableEq κ] {l : List (κ × α)} {k k1 : κ}
    (h : k1 ≠ k) : lookupA (eraseA l k) k1 = lookupA l k1 := by
  induction l with
  | nil => simp [eraseA]
  | cons hd t ih =>
    obtain ⟨k2, v2⟩ := hd
    by_cases hk : k2 = k
    · subst hk
      have : ¬ (k2 = k1) := fun hh => h (Eq.symm hh)
      simp [eraseA, lookupA, this]
    · simp [eraseA, lookupA, hk, ih]

theorem lookupA_eraseA_self {κ α : Type} [DecidableEq κ] {l : List (κ × α)} {k : κ}
    (h : (keysA l).Nodup) : lookupA (eraseA l k) k = none := by
  induction l with
  | nil => simp [eraseA, lookupA]
  | cons hd t ih =>
    obtain ⟨k1, v1⟩ := hd
    simp only [keysA, List.map_cons, List.nodup_cons] at h
    by_cases hk : k1 = k
    · subst hk
      have : k1 ∉ keysA t := h.1
      have hnone : (lookupA t k1).isNone = true := lookupA_none_iff.mpr this
      simp [eraseA]
      cases hlook : lookupA t k1 with
      | none => rfl
      | some v => rw [hlook] at hnone; simp at hnone
    · simp [eraseA, lookupA, hk]
      exact ih h.2

theorem eraseA_length {κ α : Type} [DecidableEq κ] {l : List (κ × α)} {k : κ}
    (h : (lookupA l k).isSome = true) : (eraseA l k).length + 1 = l.length := by
  induction l with
  | nil => simp [lookupA] at h
  | cons hd t ih =>
    obtain ⟨k1, v1⟩ := hd
    by_cases hk : k1 = k
    · subst hk; simp [eraseA]
    · simp [lookupA, hk] at h
      simp [eraseA, hk]
      exact ih h

theorem nodup_append_singleton {α : Type} {l : List α} {a : α}
    (h : l.Nodup) (ha : a ∉ l) : (l ++ [a]).Nodup := by
  simp [List.nodup_append, h, ha]

theorem mem_of_getLast?_eq {α : Type} : ∀ {l : List α} {a : α},
    l.getLast? = some a → a ∈ l
  | [], a => by simp [List.getLast?]
  | [x], a => by
    intro h
    simp [List.getLast?] at h
    simp [h]
  | x :: y :: t, a => by
    rw [List.getLast?_cons_cons]
    intro h
    exact List.mem_cons_of_mem x (mem_of_getLast?_eq h)

theorem length_eq_of_nodup_mem_iff {l1 l2 : List String}
    (h1 : l1.Nodup) (h2 : l2.Nodup) (h : ∀ x, x ∈ l1 ↔ x ∈ l2) :
    l1.length = l2.length := by
  have hfin : l1.toFinset = l2.toFinset := by
    ext x
    simp [List.mem_toFinset, h x]
  calc l1.length = l1.toFinset.card := (List.toFinset_card_of_nodup h1).symm
    _ = l2.toFinset.card := by rw [hfin]
    _ = l2.length := List.toFinset_card_of_nodup h2

/-- Representation invariant maintained across `get_model` calls: the
recency queue has no duplicates and matches the resident set, the resident
count respects the slot budget, the current model (when resident) sits at
the most-recent end of the queue, a non-resident current model implies free
capacity, and (for budgets of at least two) no eviction ever removed the
then-current model. -/
structure CacheInv (s : ModelCache) : Prop where
  nodupStack : s.stack.Nodup
  nodupModels : (keysA s.models).Nodup
  stackMem : ∀ n, n ∈ s.stack ↔ (lookupA s.models n).isSome = true
  bound : s.models.length ≤ s.maxLoadedModels
  currentOk : ∀ c, s.currentModel = some c → c ∉ s.stack ∨ s.stack.getLast? = some c
  currentRes : ∀ c, s.currentModel = some c → lookupA s.models c = none →
      s.models.length < s.maxLoadedModels
  logOk : 2 ≤ s.maxLoadedModels → ∀ p ∈ s.evLog, p.2 ≠ some p.1

theorem inv_init (m : Nat) (d : Bool) (cfg : List (String × Attrs)) :
    CacheInv (initCache m d cfg) := by
  refine ⟨?_, ?_, ?_, ?_, ?_, ?_, ?_⟩ <;> simp [initCache, keysA, lookupA]

theorem offloadCurrent_stack (s : ModelCache) (c : Option String) :
    (offloadCurrent s c).stack = s.stack := by
  cases c with
  | none => rfl
  | some n =>
    simp only [offloadCurrent, offload_model]
    cases lookupA s.models n <;> simp

theorem offloadCurrent_currentModel (s : ModelCache) (c : Option String) :
    (offloadCurrent s c).currentModel = s.currentModel := by
  cases c with
  | none => rfl
  | some n =>
    simp only [offloadCurrent, offload_model]
    cases lookupA s.models n <;> simp

theorem offloadCurrent_config (s : ModelCache) (c : Option String) :
    (offloadCurrent s c).config = s.config := by
  cases c with
  | none => rfl
  | some n =>
    simp only [offloadCurrent, offload_model]
    cases lookupA s.models n <;> simp

theorem offloadCurrent_max (s : ModelCache) (c : Option String) :
    (offloadCurrent s c).maxLoadedModels = s.maxLoadedModels := by
  cases c with
  | none => rfl
  | some n =>
    simp only [offloadCurrent, offload_model]
    cases lookupA s.models n <;> simp

theorem offloadCurrent_loadCount (s : ModelCache) (c : Option String) :
    (offloadCurrent s c).loadCount = s.loadCount := by
  cases c with
  | none => rfl
  | some n =>
    simp only [offloadCurrent, offload_model]
    cases lookupA s.models n <;> simp

theorem offloadCurrent_evLog (s : ModelCache) (c : Option String) :
    (offloadCurrent s c).evLog = s.evLog := by
  cases c with
  | none => rfl
  | some n =>
    simp only [offloadCurrent, offload_model]
    cases lookupA s.models n <;> simp

theorem offloadCurrent_keys (s : ModelCache) (c : Option String) :
    keysA (offloadCurrent s c).models = keysA s.models := by
  cases c with
  | none => rfl
  | some n =>
    simp only [offloadCurrent, offload_model]
    cases h : lookupA s.models n with
    | none => rfl
    | some r =>
      simp only []
      exact keysA_setA_mem _ (by simp [h])

theorem offloadCurrent_length (s : ModelCache) (c : Option String) :
    (offloadCurrent s c).models.length = s.models.length := by
  cases c with
  | none => rfl
  | some n =>
    simp only [offloadCurrent, offload_model]
    cases h : lookupA s.models n with
    | none => rfl
    | some r =>
      simp only []
      exact setA_length_mem _ (by simp [h])

theorem offloadCurrent_lookup_isSome (s : ModelCache) (c : Option String) (m : String) :
    (lookupA (offloadCurrent s c).models m).isSome = (lookupA s.models m).isSome := by
  cases c with
  | none => rfl
  | some n =>
    simp only [offloadCurrent, offload_model]
    cases h : lookupA s.models n with
    | none => rfl
    | some r =>
      simp only []
      by_cases hm : m = n
      · subst hm
        rw [lookupA_setA_self]
        simp [h]
      · rw [lookupA_setA_ne _ hm]

theorem inv_offloadCurrent (s : ModelCache) (c : Option String) (hInv : CacheInv s) :
    CacheInv (offloadCurrent s c) := by
  refine ⟨?_, ?_, ?_, ?_, ?_, ?_, ?_⟩
  · rw [offloadCurrent_stack]; exact hInv.nodupStack
  · rw [offloadCurrent_keys]; exact hInv.nodupModels
  · intro n
    rw [offloadCurrent_stack, offloadCurrent_lookup_isSome]
    exact hInv.stackMem n
  · have h1 := offloadCurrent_length s c
    have h2 := offloadCurrent_max s c
    rw [h1, h2]; exact hInv.bound
  · intro cc hcc
    rw [offloadCurrent_currentModel] at hcc
    rw [offloadCurrent_stack]
    exact hInv.currentOk cc hcc
  · intro cc hcc hnone
    rw [offloadCurrent_currentModel] at hcc
    rw [offloadCurrent_length, offloadCurrent_max]
    refine hInv.currentRes cc hcc ?_
    have := offloadCurrent_lookup_isSome s c cc
    rw [hnone] at this
    cases hl : lookupA s.models cc with
    | none => rfl
    | some r => rw [hl] at this; simp at this
  · intro hm p hp
    rw [offloadCurrent_max] at hm
    rw [offloadCurrent_evLog] at hp
    exact hInv.logOk hm p hp

theorem stack_length_eq_models (s : ModelCache) (h : CacheInv s) :
    s.stack.length = s.models.length := by
  have hkeys : ∀ x, x ∈ s.stack ↔ x ∈ keysA s.models := by
    intro x
    rw [h.stackMem x, lookupA_isSome_iff]
  have hlen := length_eq_of_nodup_mem_iff h.nodupStack h.nodupModels hkeys
  rw [hlen]
  simp [keysA]

theorem make_cache_room_ok (s s1 : ModelCache) (hInv : CacheInv s)
    (h : _make_cache_room s = .ok s1) :
    CacheInv s1 ∧ s1.models.length < s1.maxLoadedModels ∧
    s1.currentModel = s.currentModel ∧ s1.config = s.config ∧
    s1.maxLoadedModels = s.maxLoadedModels ∧ s1.loadCount = s.loadCount ∧
    s1.devIsCpu = s.devIsCpu ∧
    (∀ n, lookupA s.models n = none → lookupA s1.models n = none) ∧
    (∀ c0 r0, s.currentModel = some c0 → 2 ≤ s.maxLoadedModels →
      lookupA s.models c0 = some r0 → lookupA s1.models c0 = some r0) := by
  by_cases hfull : s.maxLoadedModels ≤ s.models.length
  · rw [_make_cache_room, if_pos hfull] at h
    cases hs : s.stack with
    | nil =>
      simp only [_pop_oldest_model, hs] at h
      exact absurd h (by simp)
    | cons oldest rest =>
      have hmem : oldest ∈ s.stack := by rw [hs]; exact List.mem_cons_self _ _
      have hsome : (lookupA s.models oldest).isSome = true := (hInv.stackMem oldest).mp hmem
      simp only [_pop_oldest_model, hs] at h
      rw [if_pos hsome] at h
      injection h with h1
      subst h1
      have hnods : rest.Nodup ∧ oldest ∉ rest := by
        have := hInv.nodupStack
        rw [hs, List.nodup_cons] at this
        exact ⟨this.2, this.1⟩
      have hlenEq : s.models.length = s.maxLoadedModels :=
        Nat.le_antisymm hInv.bound hfull
      have hlenOld : (eraseA s.models oldest).length + 1 = s.models.length :=
        eraseA_length hsome
      have hlt : (eraseA s.models oldest).length < s.maxLoadedModels := by omega
      have hold_ne : 2 ≤ s.maxLoadedModels → s.currentModel ≠ some oldest := by
        intro h2 hceq
        rcases hInv.currentOk oldest hceq with hL | hR
        · exact hL hmem
        · have hslen := stack_length_eq_models s hInv
          rw [hs] at hslen hR
          cases rest with
          | nil =>
            simp at hslen
            omega
          | cons r0 rs =>
            rw [List.getLast?_cons_cons] at hR
            exact hnods.2 (mem_of_getLast?_eq hR)
      refine ⟨⟨?_, ?_, ?_, ?_, ?_, ?_, ?_⟩, hlt, rfl, rfl, rfl, rfl, rfl, ?_, ?_⟩
      · exact hnods.1
      · show (keysA (eraseA s.models oldest)).Nodup
        rw [keysA_eraseA]
        exact hInv.nodupModels.erase oldest
      · intro n
        show n ∈ rest ↔ (lookupA (eraseA s.models oldest) n).isSome = true
        by_cases hn : n = oldest
        · subst hn
          rw [lookupA_eraseA_self hInv.nodupModels]
          simp [hnods.2]
        · rw [lookupA_eraseA_ne hn]
          have hms := hInv.stackMem n
          rw [hs, List.mem_cons] at hms
          constructor
          · intro hr; exact hms.mp (Or.inr hr)
          · intro hl
            rcases hms.mpr hl with hceq | hr
            · exact absurd hceq hn
            · exact hr
      · exact Nat.le_of_lt hlt
      · intro c hc
        rcases hInv.currentOk c hc with hL | hR
        · left
          intro hcr
          exact hL (by rw [hs]; exact List.mem_cons_of_mem _ hcr)
        · rw [hs] at hR
          cases rest with
          | nil =>
            simp [List.getLast?] at hR
            left
            simp
          | cons r0 rs =>
            rw [List.getLast?_cons_cons] at hR
            right
            exact hR
      · intro c hc hnone
        exact hlt
      · intro h2 p hp
        have hp2 : p ∈ s.evLog ++ [(oldest, s.currentModel)] := hp
        rw [List.mem_append] at hp2
        rcases hp2 with hold | hnew
        · exact hInv.logOk h2 p hold
        · rw [List.mem_singleton] at hnew
          subst hnew
          show s.currentModel ≠ some oldest
          exact hold_ne h2
      · intro n hnone
        show lookupA (eraseA s.models oldest) n = none
        by_cases hn : n = oldest
        · subst hn
          exact lookupA_eraseA_self hInv.nodupModels
        · rw [lookupA_eraseA_ne hn]
          exact hnone
      · intro c0 r0 hc0 h2 hres0
        show lookupA (eraseA s.models oldest) c0 = some r0
        have hne : ¬ (c0 = oldest) := by
          intro heq
          subst heq
          exact hold_ne h2 hc0
        rw [lookupA_eraseA_ne hne]
        exact hres0
  · rw [_make_cache_room, if_neg hfull] at h
    injection h with h1
    subst h1
    exact ⟨hInv, Nat.not_le.mp hfull, rfl, rfl, rfl, rfl, rfl, fun n hn => hn,
      fun c0 r0 hc0 h2 hr0 => hr0⟩

theorem make_cache_room_err (s : ModelCache) (e : PyErr) (s1 : ModelCache)
    (hInv : CacheInv s) (h : _make_cache_room s = .error (e, s1)) : s1 = s := by
  by_cases hfull : s.maxLoadedModels ≤ s.models.length
  · rw [_make_cache_room, if_pos hfull] at h
    cases hs : s.stack with
    | nil =>
      simp only [_pop_oldest_model, hs] at h
      injection h with h1
      injection h1 with h2 h3
      exact h3.symm
    | cons oldest rest =>
      have hmem : oldest ∈ s.stack := by rw [hs]; exact List.mem_cons_self _ _
      have hsome : (lookupA s.models oldest).isSome = true := (hInv.stackMem oldest).mp hmem
      simp only [_pop_oldest_model, hs] at h
      rw [if_pos hsome] at h
      exact absurd h (by simp)
  · rw [_make_cache_room, if_neg hfull] at h
    exact absurd h (by simp)

theorem make_cache_room_ok_of_resident (s : ModelCache) (hInv : CacheInv s)
    (c : String) (hres : (lookupA s.models c).isSome = true) :
    ∃ sR, _make_cache_room s = .ok sR := by
  by_cases hfull : s.maxLoadedModels ≤ s.models.length
  · have hcmem : c ∈ s.stack := (hInv.stackMem c).mpr hres
    cases hs : s.stack with
    | nil =>
      rw [hs] at hcmem
      simp at hcmem
    | cons oldest rest =>
      have hmem : oldest ∈ s.stack := by rw [hs]; exact List.mem_cons_self _ _
      have hsome : (lookupA s.models oldest).isSome = true := (hInv.stackMem oldest).mp hmem
      rw [_make_cache_room, if_pos hfull]
      simp only [_pop_oldest_model, hs]
      rw [if_pos hsome]
      exact ⟨_, rfl⟩
  · rw [_make_cache_room, if_neg hfull]
    exact ⟨s, rfl⟩

theorem prepareSlot_ok (s : ModelCache) (name : String) (s1 : ModelCache)
    (hInv : CacheInv s) (h : prepareSlot s name = .ok s1) :
    CacheInv s1 ∧ s1.currentModel = s.currentModel ∧ s1.config = s.config ∧
    s1.maxLoadedModels = s.maxLoadedModels ∧ s1.loadCount = s.loadCount ∧
    (lookupA s1.models name = none → s1.models.length < s1.maxLoadedModels) := by
  rw [prepareSlot] at h
  by_cases hcur : s.currentModel = some name
  · rw [if_pos hcur] at h
    injection h with h1
    subst h1
    refine ⟨hInv, rfl, rfl, rfl, rfl, ?_⟩
    intro hnone
    exact hInv.currentRes name hcur hnone
  · rw [if_neg hcur] at h
    by_cases hres : (lookupA s.models name).isNone = true
    · rw [if_pos hres] at h
      cases hroom : _make_cache_room s with
      | error es =>
        rw [hroom] at h
        exact absurd h (by simp)
      | ok sR =>
        rw [hroom] at h
        simp only [Except.ok.injEq] at h
        subst h
        obtain ⟨hIR, hlt, hc, hcf, hm, hl, hd, hpres, hsurv⟩ := make_cache_room_ok s sR hInv hroom
        refine ⟨inv_offloadCurrent sR s.currentModel hIR, ?_, ?_, ?_, ?_, ?_⟩
        · rw [offloadCurrent_currentModel, hc]
        · rw [offloadCurrent_config, hcf]
        · rw [offloadCurrent_max, hm]
        · rw [offloadCurrent_loadCount, hl]
        · intro _
          rw [offloadCurrent_length, offloadCurrent_max]
          exact hlt
    · rw [if_neg hres] at h
      simp only [Except.ok.injEq] at h
      subst h
      refine ⟨inv_offloadCurrent s s.currentModel hInv,
        offloadCurrent_currentModel s s.currentModel,
        offloadCurrent_config s s.currentModel,
        offloadCurrent_max s s.currentModel,
        offloadCurrent_loadCount s s.currentModel, ?_⟩
      intro hnone
      exfalso
      have hiso := offloadCurrent_lookup_isSome s s.currentModel name
      rw [hnone] at hiso
      cases hlook : lookupA s.models name with
      | none => rw [hlook] at hres; simp at hres
      | some r => rw [hlook] at hiso; simp at hiso

theorem prepareSlot_err (s : ModelCache) (name : String) (e : PyErr) (s1 : ModelCache)
    (hInv : CacheInv s) (h : prepareSlot s name = .error (e, s1)) : s1 = s := by
  rw [prepareSlot] at h
  by_cases hcur : s.currentModel = some name
  · rw [if_pos hcur] at h
    exact absurd h (by simp)
  · rw [if_neg hcur] at h
    by_cases hres : (lookupA s.models name).isNone = true
    · rw [if_pos hres] at h
      cases hroom : _make_cache_room s with
      | error es =>
        obtain ⟨p1, p2⟩ := es
        rw [hroom] at h
        simp only [Except.error.injEq, Prod.mk.injEq] at h
        have hps : p2 = s := make_cache_room_err s p1 p2 hInv hroom
        rw [← h.2, hps]
      | ok sR =>
        rw [hroom] at h
        exact absurd h (by simp)
    · rw [if_neg hres] at h
      exact absurd h (by simp)

theorem finish_state_inv (s : ModelCache) (name : String)
    (hcur : s.currentModel = some name)
    (h1 : s.stack.Nodup) (h2 : (keysA s.models).Nodup)
    (h3 : (lookupA s.models name).isSome = true)
    (h4 : ∀ n, n ≠ name → (n ∈ s.stack ↔ (lookupA s.models n).isSome = true))
    (h5 : s.models.length ≤ s.maxLoadedModels)
    (h6 : 2 ≤ s.maxLoadedModels → ∀ p ∈ s.evLog, p.2 ≠ some p.1) :
    CacheInv (_push_newest_model s name) := by
  refine ⟨?_, ?_, ?_, ?_, ?_, ?_, ?_⟩
  · show (s.stack.erase name ++ [name]).Nodup
    apply nodup_append_singleton (h1.erase name)
    intro hmem
    rw [List.Nodup.mem_erase_iff h1] at hmem
    exact hmem.1 rfl
  · exact h2
  · intro n
    show n ∈ s.stack.erase name ++ [name] ↔ (lookupA s.models n).isSome = true
    rw [List.mem_append, List.mem_singleton]
    by_cases hn : n = name
    · subst hn
      simp [h3]
    · constructor
      · intro hd
        rcases hd with hin | heq
        · exact (h4 n hn).mp (List.mem_of_mem_erase hin)
        · exact absurd heq hn
      · intro hsome
        left
        rw [List.Nodup.mem_erase_iff h1]
        exact ⟨hn, (h4 n hn).mpr hsome⟩
  · exact h5
  · intro c hc
    right
    have hproj : (_push_newest_model s name).currentModel = s.currentModel := rfl
    rw [hproj, hcur] at hc
    injection hc with hc2
    subst hc2
    show (s.stack.erase name ++ [name]).getLast? = some name
    exact List.getLast?_concat _
  · intro c hc hnone
    exfalso
    have hproj : (_push_newest_model s name).currentModel = s.currentModel := rfl
    rw [hproj, hcur] at hc
    injection hc with hc2
    subst hc2
    have hnone2 : lookupA s.models name = none := hnone
    rw [hnone2] at h3
    simp at h3
  · exact h6

theorem cacheInv_loadCount (s : ModelCache) (k : Nat) (h : CacheInv s) :
    CacheInv { s with loadCount := k } :=
  ⟨h.nodupStack, h.nodupModels, h.stackMem, h.bound, h.currentOk, h.currentRes, h.logOk⟩

theorem retrieve_state_inv (s1 : ModelCache) (name : String) (r r2 : MRecord)
    (hI1 : CacheInv s1) (hlook : lookupA s1.models name = some r) :
    CacheInv (_push_newest_model
      { s1 with models := setA s1.models name r2, currentModel := some name } name) := by
  have hsome : (lookupA s1.models name).isSome = true := by simp [hlook]
  apply finish_state_inv
  · rfl
  · exact hI1.nodupStack
  · show (keysA (setA s1.models name r2)).Nodup
    rw [keysA_setA_mem _ hsome]
    exact hI1.nodupModels
  · show (lookupA (setA s1.models name r2) name).isSome = true
    rw [lookupA_setA_self]
    rfl
  · intro n hn
    show n ∈ s1.stack ↔ (lookupA (setA s1.models name r2) n).isSome = true
    rw [lookupA_setA_ne _ hn]
    exact hI1.stackMem n
  · show (setA s1.models name r2).length ≤ s1.maxLoadedModels
    rw [setA_length_mem _ hsome]
    exact hI1.bound
  · exact hI1.logOk

theorem load_state_inv (s1 : ModelCache) (name : String) (r : MRecord)
    (hI1 : CacheInv s1) (hlook : lookupA s1.models name = none)
    (hcap : s1.models.length < s1.maxLoadedModels) :
    CacheInv (_push_newest_model
      { s1 with loadCount := s1.loadCount + 1,
                models := setA s1.models name r, currentModel := some name } name) := by
  have hnotmem : name ∉ keysA s1.models := by
    rw [← lookupA_isSome_iff]
    simp [hlook]
  apply finish_state_inv
  · rfl
  · exact hI1.nodupStack
  · show (keysA (setA s1.models name r)).Nodup
    rw [keysA_setA_new _ hlook]
    exact nodup_append_singleton hI1.nodupModels hnotmem
  · show (lookupA (setA s1.models name r) name).isSome = true
    rw [lookupA_setA_self]
    rfl
  · intro n hn
    show n ∈ s1.stack ↔ (lookupA (setA s1.models name r) n).isSome = true
    rw [lookupA_setA_ne _ hn]
    exact hI1.stackMem n
  · show (setA s1.models name r).length ≤ s1.maxLoadedModels
    rw [setA_length_new _ hlook]
    omega
  · exact hI1.logOk

theorem get_model_inv (loader : Nat → String → Option MRecord) :
    ∀ (fuel : Nat) (s : ModelCache) (name : String), CacheInv s →
      (∀ v s1, get_model loader fuel s name = .ok v s1 →
          CacheInv s1 ∧ s1.maxLoadedModels = s.maxLoadedModels) ∧
      (∀ e s1, get_model loader fuel s name = .raised e s1 →
          CacheInv s1 ∧ s1.maxLoadedModels = s.maxLoadedModels) := by
  intro fuel
  induction fuel with
  | zero =>
    intro s name hInv
    constructor
    · intro v s1 h
      simp [get_model] at h
    · intro e s1 h
      simp [get_model] at h
  | succ fuel ih =>
    intro s name hInv
    by_cases hv : valid_model s name = false
    · constructor
      · intro v s1 h
        simp only [get_model] at h
        rw [if_pos hv] at h
        injection h with hv1 hs1
        subst hs1
        exact ⟨hInv, rfl⟩
      · intro e s1 h
        simp only [get_model] at h
        rw [if_pos hv] at h
        simp at h
    · constructor
      · intro v s1 h
        simp only [get_model] at h
        rw [if_neg hv] at h
        split at h
        · simp at h
        case _ s1' heq =>
          obtain ⟨hI1, hc1, hcf1, hm1, hl1, hcap⟩ := prepareSlot_ok s name s1' hInv heq
          split at h
          case _ r hlook =>
            simp only [finishGet, GetOutcome.ok.injEq] at h
            rw [← h.2]
            exact ⟨retrieve_state_inv s1' name r _ hI1 hlook, hm1⟩
          case _ hlook =>
            split at h
            case _ r hload =>
              simp only [finishGet, GetOutcome.ok.injEq] at h
              rw [← h.2]
              exact ⟨load_state_inv s1' name r hI1 hlook (hcap hlook), hm1⟩
            case _ hload =>
              split at h
              · simp at h
              case _ cur hcur =>
                split at h
                · simp at h
                · split at h
                  case _ v3 s3 hrec =>
                    have hI2 : CacheInv { s1' with loadCount := s1'.loadCount + 1 } :=
                      cacheInv_loadCount s1' _ hI1
                    have hres := (ih { s1' with loadCount := s1'.loadCount + 1 } cur hI2).1 v3 s3 hrec
                    simp only [GetOutcome.ok.injEq] at h
                    rw [← h.2]
                    exact ⟨hres.1, by rw [hres.2]; exact hm1⟩
                  case _ e3 s3 hrec =>
                    simp at h
                  case _ hrec =>
                    simp at h
      · intro e s1 h
        simp only [get_model] at h
        rw [if_neg hv] at h
        split at h
        case _ e0 sE heq =>
          simp only [GetOutcome.raised.injEq] at h
          have hse : sE = s := prepareSlot_err s name e0 sE hInv heq
          rw [← h.2, hse]
          exact ⟨hInv, rfl⟩
        case _ s1' heq =>
          obtain ⟨hI1, hc1, hcf1, hm1, hl1, hcap⟩ := prepareSlot_ok s name s1' hInv heq
          split at h
          case _ r hlook =>
            simp [finishGet] at h
          case _ hlook =>
            split at h
            case _ r hload =>
              simp [finishGet] at h
            case _ hload =>
              split at h
              case _ hcur =>
                simp only [GetOutcome.raised.injEq] at h
                rw [← h.2]
                exact ⟨cacheInv_loadCount s1' _ hI1, hm1⟩
              case _ cur hcur =>
                split at h
                · simp only [GetOutcome.raised.injEq] at h
                  rw [← h.2]
                  exact ⟨cacheInv_loadCount s1' _ hI1, hm1⟩
                · split at h
                  case _ v3 s3 hrec =>
                    simp at h
                  case _ e3 s3 hrec =>
                    have hI2 : CacheInv { s1' with loadCount := s1'.loadCount + 1 } :=
                      cacheInv_loadCount s1' _ hI1
                    have hres := (ih { s1' with loadCount := s1'.loadCount + 1 } cur hI2).2 e3 s3 hrec
                    simp only [GetOutcome.raised.injEq] at h
                    rw [← h.2]
                    exact ⟨hres.1, by rw [hres.2]; exact hm1⟩
                  case _ hrec =>
                    simp at h

theorem runGets_inv (loader : Nat → String → Option MRecord) (fuel : Nat) :
    ∀ (names : List String) (s : ModelCache), CacheInv s →
      ∀ s1 ∈ runGets loader fuel s names,
        CacheInv s1 ∧ s1.maxLoadedModels = s.maxLoadedModels := by
  intro names
  induction names with
  | nil =>
    intro s hInv s1 hs1
    simp [runGets] at hs1
    subst hs1
    exact ⟨hInv, rfl⟩
  | cons n ns ih =>
    intro s hInv s1 hs1
    simp only [runGets] at hs1
    split at hs1
    case _ v s2 heq =>
      rw [List.mem_cons] at hs1
      rcases hs1 with h0 | hrest
      · subst h0
        exact ⟨hInv, rfl⟩
      · have h2 := (get_model_inv loader fuel s n hInv).1 v s2 heq
        have h3 := ih s2 h2.1 s1 hrest
        exact ⟨h3.1, by rw [h3.2, h2.2]⟩
    case _ e s2 heq =>
      rw [List.mem_cons] at hs1
      rcases hs1 with h0 | hrest
      · subst h0
        exact ⟨hInv, rfl⟩
      · have h2 := (get_model_inv loader fuel s n hInv).2 e s2 heq
        have h3 := ih s2 h2.1 s1 hrest
        exact ⟨h3.1, by rw [h3.2, h2.2]⟩
    case _ heq =>
      rw [List.mem_singleton] at hs1
      subst hs1
      exact ⟨hInv, rfl⟩

/-- Registry stanza of a legacy checkpoint model, as used in the examples. -/
def attrsCkpt : Attrs :=
  [("format", "ckpt"), ("description", "demo"), ("weights", "w.ckpt"),
   ("height", "512"), ("width", "512"), ("config", "v1.yaml")]

/-- Two-model registry used by the concrete scenarios. -/
def cfgAB : List (String × Attrs) := [("A", attrsCkpt), ("B", attrsCkpt)]

/-- Loaded record produced for model A in the concrete scenarios. -/
def rA : MRecord := ⟨⟨1, true⟩, 512, 512, "hashA"⟩

/-- Loaded record produced for model B in the concrete scenarios. -/
def rB : MRecord := ⟨⟨2, true⟩, 512, 512, "hashB"⟩

/-- Loader oracle whose loads always succeed for A and B. -/
def loaderOK : Nat → String → Option MRecord :=
  fun _ n => if n = "A" then some rA else if n = "B" then some rB else none

/-- Budget-1 cache state after `get_model("A")` from a fresh cache. -/
def budget1AfterA : ModelCache :=
  { maxLoadedModels := 1, devIsCpu := true, config := cfgAB,
    models := [("A", rA)], stack := ["A"], currentModel := some "A",
    loadCount := 1, evLog := [] }

/-- Budget-1 cache state after `get_model("A")` then `get_model("B")`. -/
def budget1AfterAB : ModelCache :=
  { maxLoadedModels := 1, devIsCpu := true, config := cfgAB,
    models := [("B", rB)], stack := ["B"], currentModel := some "B",
    loadCount := 2, evLog := [("A", some "A")] }

/-- Budget-2 cache state after `get_model("A")` from a fresh cache. -/
def budget2AfterA : ModelCache :=
  { maxLoadedModels := 2, devIsCpu := true, config := cfgAB,
    models := [("A", rA)], stack := ["A"], currentModel := some "A",
    loadCount := 1, evLog := [] }

/-- C1 (amended): for every sequence of `get_model` calls starting from a
fresh cache, the number of resident models (entries of the loaded-model map
`self.models`) never exceeds the configured slot budget `max_loaded_models`,
for every value of the budget; and whenever the budget is at least 2, the
model evicted by `_make_cache_room` / `_pop_oldest_model` is never the one
that is currently active at that moment.  (With budget 1 the claim as stated
fails: the active model itself is evicted — see the counterexample.) -/
theorem c1_budget_bound_and_no_active_eviction
    (budget : Nat) (dev : Bool) (cfg : List (String × Attrs))
    (loader : Nat → String → Option MRecord) (fuel : Nat) (names : List String)
    (s1 : ModelCache)
    (hmem : s1 ∈ runGets loader fuel (initCache budget dev cfg) names) :
    s1.models.length ≤ budget ∧
    (2 ≤ budget → ∀ p ∈ s1.evLog, p.2 ≠ some p.1) := by
  have h := runGets_inv loader fuel names (initCache budget dev cfg)
    (inv_init budget dev cfg) s1 hmem
  have hmax : s1.maxLoadedModels = budget := h.2
  refine ⟨?_, ?_⟩
  · rw [← hmax]
    exact h.1.bound
  · intro h2
    rw [← hmax] at h2
    exact h.1.logOk h2

/-- Witness for `c1_budget_bound_and_no_active_eviction`: the budget-2
single-load trace. -/
theorem c1_witness :
    budget2AfterA.models.length ≤ 2 ∧
    (2 ≤ 2 → ∀ p ∈ budget2AfterA.evLog, p.2 ≠ some p.1) :=
  c1_budget_bound_and_no_active_eviction 2 true cfgAB loaderOK 3 ["A"]
    budget2AfterA (by decide)

/-- C1 (counterexample): with slot budget 1, `get_model("A")` followed by
`get_model("B")` evicts A while A is still the current model — the ghost
eviction log pairs the evicted name with `self.current_model` at eviction
time and the two coincide, refuting the claim for budget 1. -/
theorem c1_counterexample :
    get_model loaderOK 3 (initCache 1 true cfgAB) "A" = .ok (.record rA) budget1AfterA ∧
    get_model loaderOK 3 budget1AfterA "B" = .ok (.record rB) budget1AfterAB ∧
    budget1AfterAB.evLog = [("A", some "A")] := by
  refine ⟨by decide, by decide, rfl⟩

theorem gm_unknown_name
    (loader : Nat → String → Option MRecord) (fuel : Nat) (s : ModelCache)
    (name : String) (h : valid_model s name = false) :
    get_model loader (fuel + 1) s name = .ok (retOfCurrent s.currentModel) s := by
  simp only [get_model]
  rw [if_pos h]

/-- C5 (amended): for a name absent from the registry, `get_model` fails
softly — it raises nothing, leaves the cache state unchanged, and returns
`self.current_model`, which is the *name* of the previously active model (or
Python `None` when there is none), not its loaded-model record. -/
theorem c5_unknown_name_soft_failure
    (loader : Nat → String → Option MRecord) (fuel : Nat) (s : ModelCache)
    (name : String) (h : valid_model s name = false) :
    get_model loader (fuel + 1) s name = .ok (retOfCurrent s.currentModel) s :=
  gm_unknown_name loader fuel s name h

/-- Witness for `c5_unknown_name_soft_failure` on a concrete cache. -/
theorem c5_witness :
    get_model loaderOK 1 budget2AfterA "missing" =
      .ok (retOfCurrent budget2AfterA.currentModel) budget2AfterA :=
  c5_unknown_name_soft_failure loaderOK 0 budget2AfterA "missing" (by decide)

/-- C5 (counterexample): with model A active and its record `rA` resident,
requesting an unknown name returns the bare name string `"A"` (the value of
`self.current_model`), which is not the previously active loaded-model
record `rA`: the claim that the record is returned is false. -/
theorem c5_counterexample :
    get_model loaderOK 2 budget2AfterA "missing" = .ok (.modelName "A") budget2AfterA ∧
    GetRet.modelName "A" ≠ GetRet.record rA := by
  exact ⟨by decide, by decide⟩

/-- C3: `scan_model` exits the process when the scan reports exactly one
infected file; for any other nonzero infected count it consults `ask_user`
and proceeds exactly on the affirmative answer `y` (exiting on `n`); with
zero infected files it proceeds without prompting. -/
theorem c3_scan_model_policy (n : Nat) (answer : String)
    (h : answer = "y" ∨ answer = "n") :
    scan_model 1 answer = .exited false ∧
    scan_model 0 answer = .proceeded false ∧
    (n ≠ 0 → n ≠ 1 →
      ((scan_model n answer = .proceeded true ↔ answer = "y") ∧
        (answer = "n" → scan_model n answer = .exited true))) := by
  rcases h with h | h <;> subst h
  · refine ⟨by decide, by decide, fun h0 h1 => ?_⟩
    rw [scan_model, if_pos h0, if_neg h1, if_neg (by decide : ¬(pyLower "y" ≠ "y"))]
    exact ⟨⟨fun _ => rfl, fun _ => rfl⟩, fun hb => absurd hb (by decide)⟩
  · refine ⟨by decide, by decide, fun h0 h1 => ?_⟩
    rw [scan_model, if_pos h0, if_neg h1, if_pos (by decide : pyLower "n" ≠ "y")]
    constructor
    · constructor
      · intro hx
        exact absurd hx (by decide)
      · intro hx
        exact absurd hx (by decide)
    · intro _
      rfl

/-- Witness for `c3_scan_model_policy` at two infected files and answer `y`. -/
theorem c3_witness :
    scan_model 1 "y" = .exited false ∧
    scan_model 0 "y" = .proceeded false ∧
    ((scan_model 2 "y" = .proceeded true ↔ "y" = "y") ∧
      ("y" = "n" → scan_model 2 "y" = .exited true)) := by
  have h := c3_scan_model_policy 2 "y" (Or.inl rfl)
  exact ⟨h.1, h.2.1, h.2.2 (by decide) (by decide)⟩

/-- C10: a scan reporting two or more infected files does not terminate the
process unconditionally — it takes the interactive-confirmation branch and
the load proceeds on answer `y` (and exits on `n`), unlike the
singly-infected case which exits without prompting. -/
theorem c10_multi_infected_prompts (n : Nat) (h : 2 ≤ n) :
    scan_model n "y" = .proceeded true ∧
    scan_model n "n" = .exited true ∧
    scan_model 1 "y" = .exited false := by
  have h0 : n ≠ 0 := by omega
  have h1 : n ≠ 1 := by omega
  refine ⟨?_, ?_, by decide⟩
  · rw [scan_model, if_pos h0, if_neg h1, if_neg (by decide : ¬(pyLower "y" ≠ "y"))]
  · rw [scan_model, if_pos h0, if_neg h1, if_pos (by decide : pyLower "n" ≠ "y")]

/-- Witness for `c10_multi_infected_prompts` at two infected files. -/
theorem c10_witness :
    scan_model 2 "y" = .proceeded true ∧
    scan_model 2 "n" = .exited true ∧
    scan_model 1 "y" = .exited false :=
  c10_multi_infected_prompts 2 (by decide)

/-- C7: `_cached_sha256` returns the sidecar digest without recomputation
exactly when the sidecar exists, the weights file exists, and the sidecar
mtime is at least the weights mtime; otherwise it hashes the full byte
content, persists the digest to the sidecar and returns it; and hashing the
same unchanged file twice yields the identical digest with the expensive
path running only on the first call. -/
theorem c7_cached_sha256
    (sha : String → String) (fs : FS) (now now2 : Nat) (path : WPath)
    (data : String) :
    (∀ hi pi, lookupA fs (hashPathOf path) = some hi → lookupA fs path = some pi →
      pi.mtime ≤ hi.mtime →
      _cached_sha256 sha fs now path data = .ok hi.content fs false) ∧
    (lookupA fs (hashPathOf path) = none →
      _cached_sha256 sha fs now path data =
        .ok (sha data) (setA fs (hashPathOf path) ⟨sha data, now⟩) true) ∧
    (∀ hi pi, lookupA fs (hashPathOf path) = some hi → lookupA fs path = some pi →
      ¬ pi.mtime ≤ hi.mtime →
      _cached_sha256 sha fs now path data =
        .ok (sha data) (setA fs (hashPathOf path) ⟨sha data, now⟩) true) ∧
    (lookupA fs (hashPathOf path) = none → ∀ pi, lookupA fs path = some pi →
      pi.mtime ≤ now → path.ext ≠ ".sha256" →
      _cached_sha256 sha
          (setA fs (hashPathOf path) ⟨sha data, now⟩) now2 path data =
        .ok (sha data) (setA fs (hashPathOf path) ⟨sha data, now⟩) false) := by
  refine ⟨?_, ?_, ?_, ?_⟩
  · intro hi pi h1 h2 h3
    simp only [_cached_sha256, h1, h2]
    rw [if_pos h3]
  · intro h1
    simp only [_cached_sha256, h1]
  · intro hi pi h1 h2 h3
    simp only [_cached_sha256, h1, h2]
    rw [if_neg h3]
  · intro h1 pi h2 h3 h4
    have hne : path ≠ hashPathOf path := by
      intro heq
      apply h4
      rw [heq]
      rfl
    have hl1 : lookupA (setA fs (hashPathOf path) ⟨sha data, now⟩) (hashPathOf path) =
        some ⟨sha data, now⟩ := lookupA_setA_self _ _ _
    have hl2 : lookupA (setA fs (hashPathOf path) ⟨sha data, now⟩) path = some pi := by
      rw [lookupA_setA_ne _ hne]
      exact h2
    simp only [_cached_sha256, hl1, hl2]
    rw [if_pos h3]

/-- Weights file path used in the hashing scenario. -/
def wPathEx : WPath := ⟨"/models", "w", ".ckpt"⟩

/-- Witness for `c7_cached_sha256`: a fresh hash computation followed by a
cache hit for the unchanged file. -/
theorem c7_witness :
    _cached_sha256 (fun d => "#" ++ d) [(wPathEx, ⟨"bytes", 5⟩)] 10 wPathEx "bytes" =
      .ok ("#" ++ "bytes")
        (setA [(wPathEx, ⟨"bytes", 5⟩)] (hashPathOf wPathEx) ⟨"#" ++ "bytes", 10⟩) true ∧
    _cached_sha256 (fun d => "#" ++ d)
        (setA [(wPathEx, ⟨"bytes", 5⟩)] (hashPathOf wPathEx) ⟨"#" ++ "bytes", 10⟩)
        20 wPathEx "bytes" =
      .ok ("#" ++ "bytes")
        (setA [(wPathEx, ⟨"bytes", 5⟩)] (hashPathOf wPathEx) ⟨"#" ++ "bytes", 10⟩) false := by
  have h := c7_cached_sha256 (fun d => "#" ++ d) [(wPathEx, ⟨"bytes", 5⟩)] 10 20
    wPathEx "bytes"
  exact ⟨h.2.1 (by decide),
    h.2.2.2 (by decide) ⟨"bytes", 5⟩ (by decide) (by decide) (by decide)⟩

/-- C8: `commit` writes the fixed preamble followed by the serialized
registry to the temp file `new_config.tmp` beside the target and then
atomically renames it onto the target: in the intermediate state the target
still holds its old content, afterwards it holds exactly
`preamble ++ toYaml config`, and the preamble precedes the serialized
content. -/
theorem c8_commit_atomic
    (toYaml : List (String × Attrs) → String) (fs : FS)
    (config : List (String × Attrs)) (target : WPath) (now : Nat)
    (h : target ≠ tmpPathFor target) :
    commitTrace toYaml fs config target now =
      [fs,
       fsWrite fs (tmpPathFor target) (preamble ++ toYaml config) now,
       fsReplace (fsWrite fs (tmpPathFor target) (preamble ++ toYaml config) now)
         (tmpPathFor target) target] ∧
    lookupA (fsWrite fs (tmpPathFor target) (preamble ++ toYaml config) now) target =
      lookupA fs target ∧
    lookupA (fsReplace (fsWrite fs (tmpPathFor target) (preamble ++ toYaml config) now)
        (tmpPathFor target) target) target =
      some ⟨preamble ++ toYaml config, now⟩ ∧
    (∃ rest, preamble ++ toYaml config = preamble ++ rest) := by
  refine ⟨rfl, ?_, ?_, ⟨toYaml config, rfl⟩⟩
  · rw [fsWrite, lookupA_setA_ne _ h]
  · have hl : lookupA (fsWrite fs (tmpPathFor target) (preamble ++ toYaml config) now)
        (tmpPathFor target) = some ⟨preamble ++ toYaml config, now⟩ :=
      lookupA_setA_self _ _ _
    simp only [fsReplace, hl]
    exact lookupA_setA_self _ _ _

/-- Witness for `c8_commit_atomic` on a concrete registry and target. -/
theorem c8_witness :
    commitTrace (fun _ => "stanza") [] [] ⟨"/r", "models", ".yaml"⟩ 7 =
      [[],
       fsWrite [] (tmpPathFor ⟨"/r", "models", ".yaml"⟩) (preamble ++ "stanza") 7,
       fsReplace (fsWrite [] (tmpPathFor ⟨"/r", "models", ".yaml"⟩) (preamble ++ "stanza") 7)
         (tmpPathFor ⟨"/r", "models", ".yaml"⟩) ⟨"/r", "models", ".yaml"⟩] ∧
    lookupA (fsWrite [] (tmpPathFor ⟨"/r", "models", ".yaml"⟩) (preamble ++ "stanza") 7)
        ⟨"/r", "models", ".yaml"⟩ =
      lookupA ([] : FS) ⟨"/r", "models", ".yaml"⟩ ∧
    lookupA (fsReplace
        (fsWrite [] (tmpPathFor ⟨"/r", "models", ".yaml"⟩) (preamble ++ "stanza") 7)
        (tmpPathFor ⟨"/r", "models", ".yaml"⟩) ⟨"/r", "models", ".yaml"⟩)
        ⟨"/r", "models", ".yaml"⟩ =
      some ⟨preamble ++ "stanza", 7⟩ ∧
    (∃ rest, preamble ++ "stanza" = preamble ++ rest) := by
  have hne : (⟨"/r", "models", ".yaml"⟩ : WPath) ≠ tmpPathFor ⟨"/r", "models", ".yaml"⟩ := by
    decide
  exact c8_commit_atomic (fun _ => "stanza") [] [] ⟨"/r", "models", ".yaml"⟩ 7 hne

/-- C9 (amended): the diffusers loader tries the half-precision tier first
and makes at most two `from_pretrained` attempts (one when not running at
float16); but the fall back to the full-precision tier happens on *any*
caught `OSError`, matching signature or not — the
`fp16 is not a valid` prefix test selects only the printed message; a
non-`OSError` exception is surfaced immediately without a further attempt,
and when every attempt fails the trailing `assert pipeline is not None`
raises. -/
theorem c9_fp16_fallback_behaviour (fetch : List (String × String) → FetchOutcome) :
    (∀ p, fetch fp16Args = .ok p → _load_diffusers_model true fetch = .ok p 1 []) ∧
    (∀ m p, fetch fp16Args = .osError m → fetch [] = .ok p →
      _load_diffusers_model true fetch = .ok p 2 [osNote m]) ∧
    (∀ m, fetch fp16Args = .otherExc m →
      _load_diffusers_model true fetch = .raisedOther m 1 []) ∧
    (∀ m m2, fetch fp16Args = .osError m → fetch [] = .osError m2 →
      _load_diffusers_model true fetch = .assertFailed 2 [osNote m, osNote m2]) ∧
    attemptsOf (_load_diffusers_model true fetch) ≤ 2 ∧
    attemptsOf (_load_diffusers_model false fetch) ≤ 1 := by
  refine ⟨?_, ?_, ?_, ?_, ?_, ?_⟩
  · intro p hok
    simp [_load_diffusers_model, fpArgsList, runFetchLoop, hok]
  · intro m p h1 h2
    simp [_load_diffusers_model, fpArgsList, runFetchLoop, h1, h2]
  · intro m h1
    simp [_load_diffusers_model, fpArgsList, runFetchLoop, h1]
  · intro m m2 h1 h2
    simp [_load_diffusers_model, fpArgsList, runFetchLoop, h1, h2]
  · cases h1 : fetch fp16Args with
    | ok p => simp [_load_diffusers_model, fpArgsList, runFetchLoop, h1, attemptsOf]
    | osError m =>
      cases h2 : fetch [] with
      | ok p => simp [_load_diffusers_model, fpArgsList, runFetchLoop, h1, h2, attemptsOf]
      | osError m2 =>
        simp [_load_diffusers_model, fpArgsList, runFetchLoop, h1, h2, attemptsOf]
      | otherExc m2 =>
        simp [_load_diffusers_model, fpArgsList, runFetchLoop, h1, h2, attemptsOf]
    | otherExc m =>
      simp [_load_diffusers_model, fpArgsList, runFetchLoop, h1, attemptsOf]
  · cases h1 : fetch [] with
    | ok p => simp [_load_diffusers_model, fpArgsList, runFetchLoop, h1, attemptsOf]
    | osError m => simp [_load_diffusers_model, fpArgsList, runFetchLoop, h1, attemptsOf]
    | otherExc m => simp [_load_diffusers_model, fpArgsList, runFetchLoop, h1, attemptsOf]

/-- Fetch oracle for the precision-fallback scenario: the fp16 attempt fails
with an `OSError` whose message does not carry the
`fp16 is not a valid` signature; the full-precision attempt succeeds. -/
def fetchCx : List (String × String) → FetchOutcome :=
  fun args => if args = fp16Args then .osError "connection reset by peer" else .ok 7

/-- C9 (counterexample): an `OSError` that does not match the
`fp16 is not a valid` signature is nevertheless followed by a
full-precision retry which succeeds, so the failure is not surfaced to the
caller — refuting "retries at full precision only when the failure matches
the specific signature" and "any other failure during the fetch is
surfaced". -/
theorem c9_counterexample :
    _load_diffusers_model true fetchCx =
      .ok 7 2 ["An unexpected error occurred while downloading the model: connection reset by peer"] ∧
    pyStartsWith "connection reset by peer" "fp16 is not a valid" = false := by
  exact ⟨by decide, by decide⟩

/-- Witness for `c9_fp16_fallback_behaviour` at the concrete fetch oracle. -/
theorem c9_witness :
    _load_diffusers_model true fetchCx = .ok 7 2 [osNote "connection reset by peer"] ∧
    attemptsOf (_load_diffusers_model true fetchCx) ≤ 2 := by
  have h := c9_fp16_fallback_behaviour fetchCx
  exact ⟨h.2.1 "connection reset by peer" 7 (by decide) (by decide), h.2.2.2.2.1⟩

/-- Condition under which the claim says `add_model` raises. -/
def addModelRejects (s : ModelCache) (model_name : String) (attrs : Attrs)
    (clobber : Bool) : Prop :=
  (lookupA attrs "format").isNone = true
  ∨ (lookupA attrs "format" = some "diffusers" ∧
      ((lookupA attrs "description").isNone = true
        ∨ ((lookupA attrs "path").isNone = true ∧
            (lookupA attrs "repo_id").isNone = true)))
  ∨ (lookupA attrs "format" ≠ some "diffusers" ∧
      ((lookupA attrs "description").isNone = true
        ∨ (lookupA attrs "weights").isNone = true
        ∨ (lookupA attrs "height").isNone = true
        ∨ (lookupA attrs "width").isNone = true
        ∨ (lookupA attrs "config").isNone = true))
  ∨ (clobber = false ∧ (lookupA s.config model_name).isSome = true)

theorem fieldCheck_some_iff (a : Attrs) :
    (fieldCheck a).isSome = true ↔
      (lookupA a "format" = some "diffusers" ∧
        ((lookupA a "description").isNone = true
          ∨ ((lookupA a "path").isNone = true ∧
              (lookupA a "repo_id").isNone = true)))
      ∨ (lookupA a "format" ≠ some "diffusers" ∧
          ((lookupA a "description").isNone = true
            ∨ (lookupA a "weights").isNone = true
            ∨ (lookupA a "height").isNone = true
            ∨ (lookupA a "width").isNone = true
            ∨ (lookupA a "config").isNone = true)) := by
  by_cases hd : lookupA a "format" = some "diffusers"
  · by_cases h1 : (lookupA a "description").isNone = true
    · simp [fieldCheck, hd, h1]
    · by_cases h2 : (lookupA a "path").isNone = true
      · by_cases h3 : (lookupA a "repo_id").isNone = true
        · simp [fieldCheck, hd, h1, h2, h3]
        · simp [fieldCheck, hd, h1, h2, h3]
      · simp [fieldCheck, hd, h1, h2]
  · by_cases h1 : (lookupA a "description").isNone = true
    · simp [fieldCheck, firstMissing, hd, h1]
    · by_cases h2 : (lookupA a "weights").isNone = true
      · simp [fieldCheck, firstMissing, hd, h1, h2]
      · by_cases h3 : (lookupA a "height").isNone = true
        · simp [fieldCheck, firstMissing, hd, h1, h2, h3]
        · by_cases h4 : (lookupA a "width").isNone = true
          · simp [fieldCheck, firstMissing, hd, h1, h2, h3, h4]
          · by_cases h5 : (lookupA a "config").isNone = true
            · simp [fieldCheck, firstMissing, hd, h1, h2, h3, h4, h5]
            · simp [fieldCheck, firstMissing, hd, h1, h2, h3, h4, h5]

theorem invalidate_lookup_none (s : ModelCache) (n : String)
    (hk : (keysA s.models).Nodup) :
    lookupA (_invalidate_cached_model s n).models n = none := by
  show lookupA (eraseA _ n) n = none
  apply lookupA_eraseA_self
  have hkeys : keysA (offload_model s n).models = keysA s.models :=
    offloadCurrent_keys s (some n)
  exact hkeys ▸ hk

theorem invalidate_not_mem_stack (s : ModelCache) (n : String) (hs : s.stack.Nodup) :
    n ∉ (_invalidate_cached_model s n).stack := by
  have hst : (offload_model s n).stack = s.stack := offloadCurrent_stack s (some n)
  show n ∉ (if n ∈ (offload_model s n).stack then (offload_model s n).stack.erase n
            else (offload_model s n).stack)
  rw [hst]
  by_cases hm : n ∈ s.stack
  · rw [if_pos hm]
    intro hmem
    rw [List.Nodup.mem_erase_iff hs] at hmem
    exact hmem.1 rfl
  · rw [if_neg hm]
    exact hm

/-- C6: `add_model` raises an assertion-style contract violation exactly when
`format` is absent, or `format` is `diffusers` with `description` absent or
neither `path` nor `repo_id` present, or `format` is not `diffusers` with
one of the five required legacy fields absent, or the name already exists
without `clobber`; and a successful clobbering `add_model` invalidates any
cached record: the name is gone from the loaded-model map and from the
recency queue. -/
theorem c6_add_model_contract (s : ModelCache) (model_name : String)
    (attrs : Attrs) (clobber : Bool) :
    (isErrorE (add_model s model_name attrs clobber) = true ↔
      addModelRejects s model_name attrs clobber) ∧
    (∀ s1, clobber = true → (keysA s.models).Nodup → s.stack.Nodup →
      add_model s model_name attrs clobber = .ok s1 →
      lookupA s1.models model_name = none ∧ model_name ∉ s1.stack) := by
  constructor
  · rw [add_model]
    by_cases hf : (lookupA attrs "format").isNone = true
    · rw [if_pos hf]
      exact iff_of_true rfl (Or.inl hf)
    · rw [if_neg hf]
      cases hfc : fieldCheck attrs with
      | some msg =>
        refine iff_of_true rfl ?_
        have hsome : (fieldCheck attrs).isSome = true := by simp [hfc]
        rcases (fieldCheck_some_iff attrs).mp hsome with h | h
        · exact Or.inr (Or.inl h)
        · exact Or.inr (Or.inr (Or.inl h))
      | none =>
        by_cases hcl : clobber = true ∨ lookupA s.config model_name = none
        · rw [if_pos hcl]
          refine iff_of_false ?_ ?_
          · intro hx
            exact Bool.noConfusion (show false = true from hx)
          · intro hrej
            rcases hrej with h | h | h | h
            · exact hf h
            · have hx : (fieldCheck attrs).isSome = true :=
                (fieldCheck_some_iff attrs).mpr (Or.inl h)
              rw [hfc] at hx
              simp at hx
            · have hx : (fieldCheck attrs).isSome = true :=
                (fieldCheck_some_iff attrs).mpr (Or.inr h)
              rw [hfc] at hx
              simp at hx
            · rcases hcl with hc | hc
              · rw [h.1] at hc
                exact Bool.noConfusion hc
              · rw [hc] at h
                simp at h
        · rw [if_neg hcl]
          refine iff_of_true rfl ?_
          push_neg at hcl
          refine Or.inr (Or.inr (Or.inr ⟨?_, ?_⟩))
          · cases hcb : clobber with
            | false => rfl
            | true => exact absurd hcb hcl.1
          · cases hl : lookupA s.config model_name with
            | none => exact absurd hl hcl.2
            | some v => simp
  · intro s1 hc hkn hsn hok
    subst hc
    rw [add_model] at hok
    by_cases hf : (lookupA attrs "format").isNone = true
    · rw [if_pos hf] at hok
      exact absurd hok (by simp)
    · rw [if_neg hf] at hok
      cases hfc : fieldCheck attrs with
      | some msg =>
        rw [hfc] at hok
        exact absurd hok (by simp)
      | none =>
        rw [hfc] at hok
        rw [if_pos (Or.inl rfl)] at hok
        simp only [if_pos, Except.ok.injEq] at hok
        rw [← hok]
        constructor
        · exact invalidate_lookup_none _ model_name hkn
        · exact invalidate_not_mem_stack _ model_name hsn

/-- Valid `diffusers`-format attribute set used in the `add_model` scenario. -/
def attrsDiff : Attrs :=
  [("format", "diffusers"), ("description", "optimized"), ("repo_id", "org/m")]

/-- Cache state after `add_model("m", attrsDiff, clobber=True)` on a fresh
empty-registry cache. -/
def c6after : ModelCache :=
  { maxLoadedModels := 2, devIsCpu := true, config := [("m", attrsDiff)],
    models := [], stack := [], currentModel := none, loadCount := 0, evLog := [] }

/-- Witness for `c6_add_model_contract` on a concrete clobbering add. -/
theorem c6_witness :
    (isErrorE (add_model (initCache 2 true []) "m" attrsDiff true) = true ↔
      addModelRejects (initCache 2 true []) "m" attrsDiff true) ∧
    (lookupA c6after.models "m" = none ∧ "m" ∉ c6after.stack) := by
  have h := c6_add_model_contract (initCache 2 true []) "m" attrsDiff true
  exact ⟨h.1, h.2 c6after rfl (by decide) (by decide) rfl⟩

/-- The recency queue contains exactly the set of resident model names, with
no duplicates (and unique keys in the loaded-model map). -/
def stackMatchesResidents (s : ModelCache) : Prop :=
  s.stack.Nodup ∧ (keysA s.models).Nodup ∧
  ∀ n, n ∈ s.stack ↔ (lookupA s.models n).isSome = true

theorem sm_invalidate (s : ModelCache) (n : String)
    (h : stackMatchesResidents s) :
    stackMatchesResidents (_invalidate_cached_model s n) := by
  obtain ⟨h1, h2, h3⟩ := h
  have hst : (offload_model s n).stack = s.stack := offloadCurrent_stack s (some n)
  have hk : keysA (offload_model s n).models = keysA s.models :=
    offloadCurrent_keys s (some n)
  have hlk : ∀ m, (lookupA (offload_model s n).models m).isSome =
      (lookupA s.models m).isSome :=
    fun m => offloadCurrent_lookup_isSome s (some n) m
  have hknd : (keysA (offload_model s n).models).Nodup := by
    rw [hk]
    exact h2
  refine ⟨?_, ?_, ?_⟩
  · show (if n ∈ (offload_model s n).stack then (offload_model s n).stack.erase n
        else (offload_model s n).stack).Nodup
    rw [hst]
    by_cases hm : n ∈ s.stack
    · rw [if_pos hm]
      exact h1.erase n
    · rw [if_neg hm]
      exact h1
  · show (keysA (eraseA (offload_model s n).models n)).Nodup
    rw [keysA_eraseA]
    exact hknd.erase n
  · intro m
    show (m ∈ (if n ∈ (offload_model s n).stack then (offload_model s n).stack.erase n
        else (offload_model s n).stack)) ↔
      (lookupA (eraseA (offload_model s n).models n) m).isSome = true
    rw [hst]
    by_cases hmn : m = n
    · subst hmn
      have hrn : lookupA (eraseA (offload_model s m).models m) m = none :=
        lookupA_eraseA_self hknd
      rw [hrn]
      simp only [Option.isSome_none, Bool.false_eq_true, iff_false]
      by_cases hm : m ∈ s.stack
      · rw [if_pos hm]
        intro hmem
        rw [List.Nodup.mem_erase_iff h1] at hmem
        exact hmem.1 rfl
      · rw [if_neg hm]
        exact hm
    · rw [lookupA_eraseA_ne hmn, hlk m]
      by_cases hm : n ∈ s.stack
      · rw [if_pos hm]
        rw [List.Nodup.mem_erase_iff h1]
        constructor
        · intro hx
          exact (h3 m).mp hx.2
        · intro hx
          exact ⟨hmn, (h3 m).mpr hx⟩
      · rw [if_neg hm]
        exact h3 m

/-- C4 (amended): after `get_model` (normal or raising return, from any state
satisfying the cache invariant) and after `add_model`, the recency queue
contains exactly the resident names with no duplicates; but `del_model` only
removes the name from the queue and leaves the loaded-model map untouched,
so deleting a resident model breaks the correspondence. -/
theorem c4_queue_vs_residents :
    (∀ (loader : Nat → String → Option MRecord) (fuel : Nat) (s : ModelCache)
        (name : String), CacheInv s →
      (∀ v s1, get_model loader fuel s name = .ok v s1 → stackMatchesResidents s1) ∧
      (∀ e s1, get_model loader fuel s name = .raised e s1 → stackMatchesResidents s1)) ∧
    (∀ (s : ModelCache) (name : String) (attrs : Attrs) (clobber : Bool)
        (s1 : ModelCache), stackMatchesResidents s →
      add_model s name attrs clobber = .ok s1 → stackMatchesResidents s1) ∧
    (∀ (s : ModelCache) (name : String) (s1 : ModelCache),
      del_model s name = .ok s1 →
      s1.models = s.models ∧
      s1.stack = (if name ∈ s.stack then s.stack.erase name else s.stack) ∧
      s1.currentModel = s.currentModel) := by
  refine ⟨?_, ?_, ?_⟩
  · intro loader fuel s name hInv
    have h := get_model_inv loader fuel s name hInv
    constructor
    · intro v s1 hh
      have hi := (h.1 v s1 hh).1
      exact ⟨hi.nodupStack, hi.nodupModels, hi.stackMem⟩
    · intro e s1 hh
      have hi := (h.2 e s1 hh).1
      exact ⟨hi.nodupStack, hi.nodupModels, hi.stackMem⟩
  · intro s name attrs clobber s1 hsm hok
    rw [add_model] at hok
    by_cases hf : (lookupA attrs "format").isNone = true
    · rw [if_pos hf] at hok
      exact absurd hok (by simp)
    · rw [if_neg hf] at hok
      cases hfc : fieldCheck attrs with
      | some msg =>
        rw [hfc] at hok
        exact absurd hok (by simp)
      | none =>
        rw [hfc] at hok
        by_cases hcl : clobber = true ∨ lookupA s.config name = none
        · rw [if_pos hcl] at hok
          simp only [Except.ok.injEq] at hok
          rw [← hok]
          cases clobber with
          | true => exact sm_invalidate _ name hsm
          | false => exact hsm
        · rw [if_neg hcl] at hok
          exact absurd hok (by simp)
  · intro s name s1 hok
    rw [del_model] at hok
    by_cases hd : (lookupA s.config name).isNone = true
    · rw [if_pos hd] at hok
      exact absurd hok (by simp)
    · rw [if_neg hd] at hok
      simp only [Except.ok.injEq] at hok
      rw [← hok]
      exact ⟨rfl, rfl, rfl⟩

/-- Budget-2 cache state after `get_model("A")` then `get_model("B")`. -/
def budget2AfterAB : ModelCache :=
  { maxLoadedModels := 2, devIsCpu := true, config := cfgAB,
    models := [("A", rA), ("B", rB)], stack := ["A", "B"],
    currentModel := some "B", loadCount := 2, evLog := [] }

/-- Cache state after additionally running `del_model("A")`: the record of
the idle-resident model A survives in the loaded-model map while A is gone
from the recency queue. -/
def afterDel2A : ModelCache :=
  { maxLoadedModels := 2, devIsCpu := true, config := [("B", attrsCkpt)],
    models := [("A", rA), ("B", rB)], stack := ["B"],
    currentModel := some "B", loadCount := 2, evLog := [] }

/-- C4 (counterexample): load A and B (budget 2), then `del_model("A")`:
A stays in the loaded-model map but is removed from the recency queue, so
after this public operation the queue does not contain exactly the resident
set. -/
theorem c4_counterexample :
    get_model loaderOK 3 (initCache 2 true cfgAB) "A" = .ok (.record rA) budget2AfterA ∧
    get_model loaderOK 3 budget2AfterA "B" = .ok (.record rB) budget2AfterAB ∧
    del_model budget2AfterAB "A" = .ok afterDel2A ∧
    (lookupA afterDel2A.models "A").isSome = true ∧
    ¬ ("A" ∈ afterDel2A.stack ↔ (lookupA afterDel2A.models "A").isSome = true) := by
  exact ⟨by decide, by decide, rfl, rfl, by decide⟩

/-- Witness for `c4_queue_vs_residents`: the `del_model` clause applied to
the concrete deletion of idle-resident model A. -/
theorem c4_witness :
    afterDel2A.models = budget2AfterAB.models ∧
    afterDel2A.stack = (if "A" ∈ budget2AfterAB.stack then budget2AfterAB.stack.erase "A"
      else budget2AfterAB.stack) ∧
    afterDel2A.currentModel = budget2AfterAB.currentModel :=
  c4_queue_vs_residents.2.2 budget2AfterAB "A" afterDel2A rfl

theorem gm_unfold_load_fail (loader : Nat → String → Option MRecord) (fuel : Nat)
    (s : ModelCache) (name : String)
    (hv : ¬ (valid_model s name = false))
    (s1 : ModelCache) (hps : prepareSlot s name = .ok s1)
    (hmiss : lookupA s1.models name = none)
    (hfail : loader s1.loadCount name = none)
    (cur : String) (hcur : s1.currentModel = some cur) (hcne : cur ≠ "") :
    get_model loader (fuel + 1) s name =
      (match get_model loader fuel { s1 with loadCount := s1.loadCount + 1 } cur with
       | .ok _ s3 => .ok .retNone s3
       | .raised e s3 => .raised e s3
       | .outOfFuel => .outOfFuel) := by
  simp only [get_model]
  rw [if_neg hv]
  split
  case _ e sE heq =>
    rw [hps] at heq
    exact absurd heq (by simp)
  case _ s1' heq =>
    rw [hps] at heq
    injection heq with heq2
    subst heq2
    split
    case _ r hlook =>
      rw [hmiss] at hlook
      exact absurd hlook (by simp)
    case _ hlook =>
      split
      case _ r hload =>
        rw [hfail] at hload
        exact absurd hload (by simp)
      case _ hload =>
        split
        case _ hcur2 =>
          have hcc : s1.currentModel = none := hcur2
          rw [hcur] at hcc
          exact absurd hcc (by simp)
        case _ cur2 hcur2 =>
          have hcc : s1.currentModel = some cur2 := hcur2
          rw [hcur] at hcc
          injection hcc with hcc2
          subst hcc2
          rw [if_neg hcne]

theorem gm_load_fail_fatal (loader : Nat → String → Option MRecord) (fuel : Nat)
    (s : ModelCache) (name : String)
    (hv : ¬ (valid_model s name = false))
    (s1 : ModelCache) (hps : prepareSlot s name = .ok s1)
    (hmiss : lookupA s1.models name = none)
    (hfail : loader s1.loadCount name = none)
    (hcur : s1.currentModel = none) :
    get_model loader (fuel + 1) s name =
      .raised (.assertionError fatalNoCurrent) { s1 with loadCount := s1.loadCount + 1 } := by
  simp only [get_model]
  rw [if_neg hv]
  split
  case _ e sE heq =>
    rw [hps] at heq
    exact absurd heq (by simp)
  case _ s1' heq =>
    rw [hps] at heq
    injection heq with heq2
    subst heq2
    split
    case _ r hlook =>
      rw [hmiss] at hlook
      exact absurd hlook (by simp)
    case _ hlook =>
      split
      case _ r hload =>
        rw [hfail] at hload
        exact absurd hload (by simp)
      case _ hload =>
        split
        case _ hcur2 =>
          rfl
        case _ cur2 hcur2 =>
          have hcc : s1.currentModel = some cur2 := hcur2
          rw [hcur] at hcc
          exact absurd hcc (by simp)

theorem gm_hit (loader : Nat → String → Option MRecord) (fuel : Nat)
    (s : ModelCache) (name : String) (r : MRecord)
    (hv : ¬ (valid_model s name = false))
    (s1 : ModelCache) (hps : prepareSlot s name = .ok s1)
    (hl : lookupA s1.models name = some r) :
    get_model loader (fuel + 1) s name =
      .ok (.record ({ r with model := _model_from_cpu s1 r.model }))
        (_push_newest_model
          { s1 with models := setA s1.models name ({ r with model := _model_from_cpu s1 r.model }),
                    currentModel := some name } name) := by
  simp only [get_model]
  rw [if_neg hv]
  split
  case _ e sE heq =>
    rw [hps] at heq
    exact absurd heq (by simp)
  case _ s1' heq =>
    rw [hps] at heq
    injection heq with heq2
    subst heq2
    split
    case _ r0 hlook =>
      rw [hl] at hlook
      injection hlook with hlook2
      subst hlook2
      rfl
    case _ hlook =>
      rw [hl] at hlook
      exact absurd hlook (by simp)

/-- Record stored back by `offload_model`: the same record with its model
object migrated to the CPU. -/
def offloadedRec (s : ModelCache) (rc : MRecord) : MRecord :=
  { rc with model := _model_to_cpu s rc.model }

/-- Record stored back on a RAM-cache hit: the same record with its model
object promoted from the CPU. -/
def promotedRec (s : ModelCache) (rc : MRecord) : MRecord :=
  { rc with model := _model_from_cpu s rc.model }

theorem gm_fail_restore (loader : Nat → String → Option MRecord) (fuel : Nat)
    (s : ModelCache) (name c : String)
    (hv : ¬ (valid_model s name = false))
    (s1 : ModelCache) (hps : prepareSlot s name = .ok s1)
    (hmiss : lookupA s1.models name = none)
    (hfail : loader s1.loadCount name = none)
    (hcur : s1.currentModel = some c) (hcne : c ≠ "")
    (hres : (lookupA s1.models c).isSome = true) :
    ∃ sF, get_model loader (fuel + 2) s name = .ok .retNone sF ∧
      sF.currentModel = some c := by
  have hstep := gm_unfold_load_fail loader (fuel + 1) s name hv s1 hps hmiss hfail
    c hcur hcne
  set s2 : ModelCache := { s1 with loadCount := s1.loadCount + 1 } with hs2
  have h2cur : s2.currentModel = some c := hcur
  by_cases hvc : valid_model s2 c = false
  · have hinner := gm_unknown_name loader fuel s2 c hvc
    refine ⟨s2, ?_, h2cur⟩
    show get_model loader (fuel + 1 + 1) s name = .ok .retNone s2
    rw [hstep, hinner, h2cur]
  · obtain ⟨r, hr⟩ : ∃ r, lookupA s2.models c = some r := by
      have hx : (lookupA s2.models c).isSome = true := hres
      cases hy : lookupA s2.models c with
      | none =>
        rw [hy] at hx
        simp at hx
      | some r => exact ⟨r, rfl⟩
    have h2ps : prepareSlot s2 c = .ok s2 := by
      rw [prepareSlot, if_pos h2cur]
    have hinner := gm_hit loader fuel s2 c r hvc s2 h2ps hr
    refine ⟨_push_newest_model
      { s2 with models := setA s2.models c (promotedRec s2 r),
                currentModel := some c } c, ?_, ?_⟩
    · show get_model loader (fuel + 1 + 1) s name = _
      rw [hstep, hinner]
      rfl
    · rfl

/-- C2 (amended): when `_load_model` raises inside `get_model` and the
previously active model is still resident in the RAM cache at the time of
the failing load — which is the case whenever the cache is below its slot
budget, and in every cache satisfying the reachable-state invariant whose
slot budget is at least 2, because room-making then evicts the queue head
and never the active model at the most-recent end — `get_model` restores
the previous model as current, returns Python `None`, and lets no exception
escape; when there is no previously active model, the
`assert self.current_model` failure is raised out of `get_model`.  (When the
previously active model was itself evicted to make room — slot budget 1 —
and its reload fails too, the restore path instead recurses without bound:
see the counterexample.) -/
theorem c2_load_failure_recovery :
    (∀ (loader : Nat → String → Option MRecord) (fuel : Nat) (s : ModelCache)
        (name c : String) (rc : MRecord),
      valid_model s name = true →
      s.currentModel = some c → c ≠ "" →
      lookupA s.models c = some rc →
      lookupA s.models name = none →
      (s.models.length < s.maxLoadedModels ∨ (CacheInv s ∧ 2 ≤ s.maxLoadedModels)) →
      loader s.loadCount name = none →
      ∃ s1, get_model loader (fuel + 2) s name = .ok .retNone s1 ∧
        s1.currentModel = some c) ∧
    (∀ (loader : Nat → String → Option MRecord) (fuel : Nat) (s : ModelCache)
        (name : String),
      valid_model s name = true →
      s.currentModel = none →
      lookupA s.models name = none →
      s.models.length < s.maxLoadedModels →
      loader s.loadCount name = none →
      get_model loader (fuel + 1) s name =
        .raised (.assertionError fatalNoCurrent)
          ({ s with loadCount := s.loadCount + 1 })) := by
  constructor
  · intro loader fuel s name c rc hv hc hcne hrc hnone hdisj hload
    have hvf : ¬ (valid_model s name = false) := by simp [hv]
    have hcn : ¬ (s.currentModel = some name) := by
      rw [hc]
      intro heq
      injection heq with heq2
      subst heq2
      rw [hrc] at hnone
      exact absurd hnone (by simp)
    have hnamec : ¬ (name = c) := by
      intro heq
      subst heq
      rw [hrc] at hnone
      exact absurd hnone (by simp)
    have hisnone : (lookupA s.models name).isNone = true := by simp [hnone]
    obtain ⟨sR, hroom, hRc, hRmiss, hcR, hlR⟩ :
        ∃ sR, _make_cache_room s = .ok sR ∧ lookupA sR.models c = some rc ∧
          lookupA sR.models name = none ∧ sR.currentModel = s.currentModel ∧
          sR.loadCount = s.loadCount := by
      rcases hdisj with hlen | ⟨hInv, h2max⟩
      · refine ⟨s, ?_, hrc, hnone, rfl, rfl⟩
        rw [_make_cache_room, if_neg (Nat.not_le.mpr hlen)]
      · obtain ⟨sR, hroom⟩ := make_cache_room_ok_of_resident s hInv c (by simp [hrc])
        obtain ⟨hIR, hlt, hcR, hcfR, hmR, hlR, hdR, hpres, hsurv⟩ :=
          make_cache_room_ok s sR hInv hroom
        exact ⟨sR, hroom, hsurv c rc hc h2max hrc, hpres name hnone, hcR, hlR⟩
    have hOdef : offload_model sR c =
        { sR with models := setA sR.models c (offloadedRec sR rc) } := by
      rw [offload_model, hRc]
      rfl
    have hps : prepareSlot s name = .ok (offload_model sR c) := by
      rw [prepareSlot, if_neg hcn, if_pos hisnone, hroom, hc]
      rfl
    have hmiss1 : lookupA (offload_model sR c).models name = none := by
      rw [hOdef]
      show lookupA (setA sR.models c (offloadedRec sR rc)) name = none
      rw [lookupA_setA_ne _ hnamec]
      exact hRmiss
    have hfail1 : loader (offload_model sR c).loadCount name = none := by
      have hx : (offload_model sR c).loadCount = sR.loadCount :=
        offloadCurrent_loadCount sR (some c)
      rw [hx, hlR]
      exact hload
    have hcur1 : (offload_model sR c).currentModel = some c := by
      have hx : (offload_model sR c).currentModel = sR.currentModel :=
        offloadCurrent_currentModel sR (some c)
      rw [hx, hcR]
      exact hc
    have hres1 : (lookupA (offload_model sR c).models c).isSome = true := by
      rw [hOdef]
      show (lookupA (setA sR.models c (offloadedRec sR rc)) c).isSome = true
      rw [lookupA_setA_self]
      rfl
    exact gm_fail_restore loader fuel s name c hvf (offload_model sR c) hps hmiss1
      hfail1 hcur1 hcne hres1
  · intro loader fuel s name hv hc0 hnone hlen hload
    have hvf : ¬ (valid_model s name = false) := by simp [hv]
    have hcn : ¬ (s.currentModel = some name) := by
      rw [hc0]
      simp
    have hisnone : (lookupA s.models name).isNone = true := by simp [hnone]
    have hroom : _make_cache_room s = .ok s := by
      rw [_make_cache_room, if_neg (Nat.not_le.mpr hlen)]
    have hps : prepareSlot s name = .ok s := by
      rw [prepareSlot, if_neg hcn, if_pos hisnone, hroom, hc0]
      rfl
    exact gm_load_fail_fatal loader fuel s name hvf s hps hnone hload hc0

/-- Loader oracle for the load-failure scenarios: the very first
`_load_model` call (index 0, model A) succeeds; every later call raises. -/
def loaderFail : Nat → String → Option MRecord :=
  fun i n => if i = 0 then (if n = "A" then some rA else none) else none

/-- Budget-1 state reached inside a failing `get_model("B")` call after A
was evicted to make room: the restore target A is no longer resident;
`k` counts the `_load_model` invocations made so far. -/
def c2evicted (k : Nat) : ModelCache :=
  { maxLoadedModels := 1, devIsCpu := true, config := cfgAB,
    models := [], stack := [], currentModel := some "A",
    loadCount := k, evLog := [("A", some "A")] }

theorem c2_inner_diverges : ∀ (fuel k : Nat), 1 ≤ k →
    get_model loaderFail fuel (c2evicted k) "A" = .outOfFuel := by
  intro fuel
  induction fuel with
  | zero =>
    intro k hk
    rfl
  | succ fuel ih =>
    intro k hk
    have hvt : valid_model (c2evicted k) "A" = true := rfl
    have hv : ¬ (valid_model (c2evicted k) "A" = false) := by simp [hvt]
    have hps : prepareSlot (c2evicted k) "A" = .ok (c2evicted k) := by
      rw [prepareSlot,
        if_pos (show (c2evicted k).currentModel = some "A" from rfl)]
    have hmiss : lookupA (c2evicted k).models "A" = none := rfl
    have hfail : loaderFail (c2evicted k).loadCount "A" = none := by
      show loaderFail k "A" = none
      have hk0 : ¬ (k = 0) := by omega
      simp [loaderFail, hk0]
    have hstep := gm_unfold_load_fail loaderFail fuel (c2evicted k) "A" hv
      (c2evicted k) hps hmiss hfail "A" rfl (by decide)
    rw [hstep]
    have hnext : ({ c2evicted k with loadCount := (c2evicted k).loadCount + 1 }) =
        c2evicted (k + 1) := rfl
    rw [hnext, ih (k + 1) (by omega)]

theorem c2_outer_diverges : ∀ fuel,
    get_model loaderFail fuel budget1AfterA "B" = .outOfFuel := by
  intro fuel
  cases fuel with
  | zero => rfl
  | succ fuel =>
    have hv : ¬ (valid_model budget1AfterA "B" = false) := by decide
    have hps : prepareSlot budget1AfterA "B" = .ok (c2evicted 1) := by rfl
    have hmiss : lookupA (c2evicted 1).models "B" = none := rfl
    have hfail : loaderFail (c2evicted 1).loadCount "B" = none := rfl
    have hstep := gm_unfold_load_fail loaderFail fuel budget1AfterA "B" hv
      (c2evicted 1) hps hmiss hfail "A" rfl (by decide)
    rw [hstep]
    have hnext : ({ c2evicted 1 with loadCount := (c2evicted 1).loadCount + 1 }) =
        c2evicted 2 := rfl
    rw [hnext, c2_inner_diverges fuel 2 (by omega)]

/-- The `get_model` call never returns for any recursion depth: each unit of
fuel is consumed by one more round of the failure-restore recursion of the
source, so the Python original recurses without bound (until
`RecursionError`). -/
def divergesOn (loader : Nat → String → Option MRecord) (s : ModelCache)
    (name : String) : Prop :=
  ∀ fuel, get_model loader fuel s name = .outOfFuel

/-- C2 (counterexample): with slot budget 1, after a successful
`get_model("A")`, a `get_model("B")` whose load fails evicts A first, so the
restore call `self.get_model(self.current_model)` must reload A; that reload
fails too and the code recurses forever instead of restoring the previous
model and returning without raising — refuting the claim that a failing load
is always recovered by restoring the previously active model. -/
theorem c2_counterexample :
    get_model loaderFail 3 (initCache 1 true cfgAB) "A" = .ok (.record rA) budget1AfterA ∧
    divergesOn loaderFail budget1AfterA "B" :=
  ⟨by decide, c2_outer_diverges⟩

/-- Three-model registry for the full-cache restore scenario. -/
def cfgABC : List (String × Attrs) :=
  [("A", attrsCkpt), ("B", attrsCkpt), ("C", attrsCkpt)]

/-- Full budget-2 cache: A and B resident, B active. -/
def full2AB : ModelCache :=
  { maxLoadedModels := 2, devIsCpu := true, config := cfgABC,
    models := [("A", rA), ("B", rB)], stack := ["A", "B"],
    currentModel := some "B", loadCount := 2, evLog := [] }

theorem cacheInv_full2AB : CacheInv full2AB := by
  refine ⟨?_, ?_, ?_, ?_, ?_, ?_, ?_⟩
  · decide
  · decide
  · intro n
    show n ∈ ["A", "B"] ↔ (lookupA [("A", rA), ("B", rB)] n).isSome = true
    by_cases h1 : n = "A"
    · subst h1
      simp [lookupA]
    · by_cases h2 : n = "B"
      · subst h2
        simp [lookupA]
      · have h1x : ¬ ("A" = n) := fun hh => h1 hh.symm
        have h2x : ¬ ("B" = n) := fun hh => h2 hh.symm
        simp [lookupA, h1, h2, h1x, h2x]
  · decide
  · intro c0 hc0
    have hc1 : some "B" = some c0 := hc0
    injection hc1 with hc2
    subst hc2
    right
    rfl
  · intro c0 hc0 hnone0
    have hc1 : some "B" = some c0 := hc0
    injection hc1 with hc2
    subst hc2
    exact absurd hnone0 (by decide)
  · intro _ p hp
    have hp2 : p ∈ ([] : List (String × Option String)) := hp
    simp at hp2

/-- Budget-2 cache after the failing `get_model("C")` on the full cache
evicted idle-resident A and restored model B. -/
def c2restoredFull : ModelCache :=
  { maxLoadedModels := 2, devIsCpu := true, config := cfgABC,
    models := [("B", rB)], stack := ["B"], currentModel := some "B",
    loadCount := 3, evLog := [("A", some "B")] }

/-- Witness for `c2_load_failure_recovery`: a full budget-2 cache with A and
B resident and B active; the failing load of C evicts A (never the active
B), restores B as current, and returns `None` without raising. -/
theorem c2_witness :
    get_model loaderFail (0 + 2) full2AB "C" = .ok .retNone c2restoredFull ∧
    c2restoredFull.currentModel = some "B" := by
  obtain ⟨s1, h1, h2⟩ := c2_load_failure_recovery.1 loaderFail 0 full2AB "C" "B" rB
    rfl rfl (by decide) rfl rfl (Or.inr ⟨cacheInv_full2AB, by decide⟩) rfl
  have hconc : get_model loaderFail (0 + 2) full2AB "C" = .ok .retNone c2restoredFull := by
    decide
  rw [hconc] at h1
  injection h1 with hv1 hs1
  rw [← hs1] at h2
  exact ⟨hconc, h2⟩
